import Mathlib

/-!
Verification of the XYZ file handler (`biotite/structure/io/xyz/file.py`,
class `XYZFile`) against its natural-language specification.

Modelling conventions (shallow embedding):

* A physical file line is modelled by its list of whitespace-separated
  tokens (`Line := List Token`).  Every operation of the source inspects a
  line only through `strip()`, `split()` / `split(" ")` and `isdigit()`,
  so the token list determines the behaviour of every code path, except
  where noted below.
* A `Token` is the equivalence class of a string under the observations
  the source makes of individual tokens: `isdigit` of the whole (single
  token) line, `int(...)` and `float(...)`.
  `word s` stands for a string that parses neither as int nor as float,
  `natTok n` for an unsigned digit string (value `n`), `intTok z` for a
  signed integer literal such as "-3", `decTok q` for a finite float
  literal that is not an integer literal (e.g. "1.500000", value as a
  rational), and `nanTok` / `infTok` / `ninfTok` for the special float
  strings.
* Python floats are modelled by `PyFloat`: a finite rational or one of
  the non-finite values.  The 6-decimal formatting `"{:.6f}"` used by
  `set_structure` is modelled as rounding to the nearest multiple of
  10⁻⁶ (`round6`); the exact tie-breaking of the binary float formatter
  is immaterial to every claim, which only ever needs
  `|round6 q - q| ≤ 1/2000000`.  The width-11 left/right justification
  adds only whitespace padding and is invisible at token level.
* The `XYZFile` object is stateful with lazily filled caches that start
  as `None`; every claim concerns a freshly constructed or freshly read
  file, so each method is embedded as a pure function of the line buffer,
  with the cache-filling still performed in source order (so that the
  errors it can raise are raised at the same point).
* Python exceptions are modelled with `Except Err`; `Err` distinguishes
  the `ValueError`s of the source by their payloads and keeps Python
  `IndexError` / generic parse `ValueError` abstract.
-/

namespace XYZ

/-- Equivalence class of a whitespace-free, non-empty string under the
observations `isdigit`, `int(...)`, `float(...)` made by the source. -/
inductive Token
  | word (s : String)
  | natTok (n : ℕ)
  | intTok (z : ℤ)
  | decTok (q : ℚ)
  | nanTok
  | infTok
  | ninfTok
deriving DecidableEq, Repr

/-- A physical line, as its list of whitespace-separated tokens. -/
abbrev Line := List Token

/-- Python float value: finite (rational) or one of the special values. -/
inductive PyFloat
  | finite (q : ℚ)
  | nan
  | inf
  | ninf
deriving DecidableEq, Repr

/-- `np.isnan` on a Python float: true only for NaN (false for ±Inf). -/
def PyFloat.isnan : PyFloat → Bool
  | .nan => true
  | _ => false

/-- `float(tok)` on a single token: `word` raises `ValueError`, every
numeric class converts to its value. -/
def Token.pyFloat : Token → Option PyFloat
  | .word _ => none
  | .natTok n => some (.finite n)
  | .intTok z => some (.finite z)
  | .decTok q => some (.finite q)
  | .nanTok => some .nan
  | .infTok => some .inf
  | .ninfTok => some .ninf

/-- `line.strip().isdigit()`: true iff the line consists of exactly one
token and that token is an unsigned digit string. -/
def isNumericLine : Line → Bool
  | [Token.natTok _] => true
  | _ => false

/-- Value of `int(line.strip().strip(" "))` for a line that satisfies
`isNumericLine` (the only lines the source applies it to); the default 0
is never reached on those lines. -/
def countOf : Line → ℕ
  | [Token.natTok n] => n
  | _ => 0

/-- `int(str(line))` on a whole line, as used by `set_header` on the
first non-body line: succeeds only for a single integer-literal token. -/
def pyIntLine : Line → Option ℤ
  | [Token.natTok n] => some n
  | [Token.intTok z] => some z
  | _ => none

/-- Errors raised by the embedded operations. -/
inductive Err
  /-- `ValueError("Trying to get_structure from empty XYZFile")` -/
  | emptyFile
  /-- `ValueError("Number of Atoms not matching with coordinate lines ...")`,
  carrying the declared atom count and the actual span length. -/
  | countMismatch (declared actual : ℕ)
  /-- `ValueError("At least one of the coordinates is NaN (x,y,z)")`,
  carrying the offending coordinate triple. -/
  | nanCoord (x y z : PyFloat)
  /-- `ValueError("Tried to get header of model [m]. But has only M many models.")` -/
  | headerOutOfRange (requested available : ℕ)
  /-- Python `IndexError` (plain list index out of range). -/
  | indexError
  /-- Python `ValueError` from a failed `int(...)`/`float(...)`. -/
  | valueError
  /-- `ValueError("Can not set header of an empty XYZFile ...")` -/
  | prematureSetHeader
  /-- `ValueError("Specified model value [m] is not compatible with number of models [M]")` -/
  | setHeaderOutOfRange (requested available : ℕ)
  /-- Failure of `biotite.structure.stack` (empty input or models whose
  annotation arrays disagree). -/
  | stackError
deriving DecidableEq, Repr

/-- Sequential effectful map over a list, stopping at the first error:
the behaviour of a Python `for` loop that may `raise`. -/
def mapE (f : α → Except Err β) : List α → Except Err (List β)
  | [] => .ok []
  | a :: as => do
      let b ← f a
      let bs ← mapE f as
      .ok (b :: bs)

/-! ### Model-boundary detector (`XYZFile.__update_start_lines`) -/

/-- Indices of the lines satisfying a predicate:
`[i for i in range(len(self.lines)) if p(self.lines[i])]`. -/
def idxWhere (p : Line → Bool) (lines : List Line) : List ℕ :=
  (List.range lines.length).filter (fun i => p (lines.getD i []))

/-- The initial candidate scan:
`[i for i in range(len(self.lines)) if self.lines[i].strip().isdigit()]`. -/
def candidateInds (lines : List Line) : List ℕ :=
  idxWhere isNumericLine lines

/-- The disambiguation pass over the candidate list: keep the first
index, and keep a later index iff it is not exactly one more than its
predecessor in the original candidate list
(`np.where(inds[:-1] - inds[1:] != -1)[0] + 1`). -/
def purgeAux (prev : ℕ) : List ℕ → List ℕ
  | [] => []
  | b :: rest => (if b = prev + 1 then [] else [b]) ++ purgeAux b rest

/-- `XYZFile.__update_start_lines`: candidate scan, then the purge when
more than one candidate was found; the `elif shape[0] == 2` branch of
the source is kept as written (it is unreachable, because two candidates
already satisfy `shape[0] > 1`). -/
def startInds (lines : List Line) : List ℕ :=
  let c := candidateInds lines
  if 1 < c.length then
    match c with
    | [] => []
    | a :: rest => a :: purgeAux a rest
  else if c.length = 2 then
    c.take 1
  else
    c

/-! ### Body-count heuristic (`XYZFile.__get_number_of_atoms`) -/

/-- Indices of the lines whose whitespace-token count differs from 4:
`[i for i in range(len(lines_parsed)) if len(lines_parsed[i]) != 4]`. -/
def nonBodyInds (lines : List Line) : List ℕ :=
  idxWhere (fun l => l.length ≠ 4) lines

/-- Result of `__get_number_of_atoms`: the single-model branch returns
`[int(len(self.lines[2:]))]` (one integer), the multi-model branch
returns the raw text of every second non-body line (a list of lines). -/
inductive NumAtomsRes
  | single (n : ℕ)
  | multi (ls : List Line)
deriving DecidableEq, Repr

/-- `XYZFile.__get_number_of_atoms`. -/
def numberOfAtoms (lines : List Line) : NumAtomsRes :=
  let inds := nonBodyInds lines
  if inds.length ≤ 2 then
    .single (lines.drop 2).length
  else
    let num := inds.length / 2
    .multi ((List.range num).map (fun i => lines.getD (inds.getD (2 * i) 0) []))

/-- `XYZFile.get_model_count`: `len(self.__get_number_of_atoms())`. -/
def getModelCount (lines : List Line) : ℕ :=
  match numberOfAtoms lines with
  | .single _ => 1
  | .multi ls => ls.length

/-! ### Header codec (`XYZFile.get_header`, `XYZFile.set_header`) -/

/-- The cached `_atom_numbers`:
`[int(self.lines[i].strip().strip(" ")) for i in self._model_start_inds]`
(every start index points at a numeric line, so the parse is total). -/
def headerCounts (lines : List Line) : List ℕ :=
  (startInds lines).map (fun i => countOf (lines.getD i []))

/-- The cached `_mol_names`:
`[self.lines[i+1].strip() for i in self._model_start_inds]`; raises
`IndexError` when a start index is the last line of the buffer. -/
def molNamesE (lines : List Line) : Except Err (List Line) :=
  mapE
    (fun i =>
      if i + 1 < lines.length then .ok (lines.getD (i + 1) []) else .error .indexError)
    (startInds lines)

/-- The names when every start index has a following line. -/
def headerNames (lines : List Line) : List Line :=
  (startInds lines).map (fun i => lines.getD (i + 1) [])

/-- Result of `get_header`: a scalar `(atom_count, name)` pair or the
parallel lists. -/
inductive HeaderRes
  | one (n : ℕ) (name : Line)
  | lists (ns : List ℕ) (names : List Line)
deriving DecidableEq, Repr

/-- `XYZFile.get_header` on a fresh file: recompute start indices, fill
the `_atom_numbers` and `_mol_names` caches (in source order, so the
`IndexError` of the name comprehension fires before the model check),
then dispatch on the `model` argument.  Note the source bound check is
`model > len(self._atom_numbers)`, so `model = len` slips through to a
plain `IndexError` at `self._atom_numbers[model]`. -/
def getHeader (lines : List Line) (model : Option ℕ) : Except Err HeaderRes := do
  let counts := headerCounts lines
  let names ← molNamesE lines
  match model with
  | some m =>
      if counts.length < m then
        .error (.headerOutOfRange m counts.length)
      else if m < counts.length then
        .ok (.one (counts.getD m 0) (names.getD m []))
      else
        .error .indexError
  | none =>
      if counts.length = 1 then
        .ok (.one (counts.getD 0 0) (names.getD 0 []))
      else
        .ok (.lists counts names)

/-- `XYZFile.set_header` on a fresh file (caches `None`, so `get_header`
is called first and its errors propagate).  With a model index, only the
cached name list is overwritten, the buffer is unchanged; without one,
line 1 becomes the new name, line 0 becomes
`str(self.__get_number_of_atoms()[0])` recomputed on the mutated buffer,
and `int(self.lines[0])` must then succeed; on a buffer without body
content the premature-operation error is raised. -/
def setHeader (lines : List Line) (molName : Line) (model : Option ℕ) :
    Except Err (List Line) := do
  let _ ← getHeader lines none
  match model with
  | some m =>
      if m < (headerNames lines).length then
        .ok lines
      else
        .error (.setHeaderOutOfRange m (getModelCount lines))
  | none =>
      if 2 < lines.length then
        let lines1 := lines.set 1 molName
        let l0 : Line :=
          match numberOfAtoms lines1 with
          | .single n => [Token.natTok n]
          | .multi ls => ls.getD 0 []
        let lines2 := lines1.set 0 l0
        match pyIntLine l0 with
        | some _ => .ok lines2
        | none => .error .valueError
      else
        .error .prematureSetHeader

/-! ### Structure model -/

/-- One atom as the parser and serializer see it: element label (kept as
its token, since the source only ever stores and re-emits the string)
and three float coordinates. -/
structure Atom where
  element : Token
  x : PyFloat
  y : PyFloat
  z : PyFloat
deriving DecidableEq, Repr

/-- Result of `get_structure`: a single unwrapped `AtomArray` or a full
`AtomArrayStack`. -/
inductive StructRes
  | one (m : List Atom)
  | many (ms : List (List Atom))
deriving DecidableEq, Repr

/-- All atoms contained in a `get_structure` result. -/
def resAtoms : StructRes → List Atom
  | .one m => m
  | .many ms => ms.flatten

/-! ### Body codec: parsing (`XYZFile.get_structure`) -/

/-- `line_parsed[k]`: Python list indexing with its `IndexError`. -/
def tokAt (l : Line) (k : ℕ) : Except Err Token :=
  match l.get? k with
  | some t => .ok t
  | none => .error .indexError

/-- `float(tok)` with its `ValueError`. -/
def floatE (t : Token) : Except Err PyFloat :=
  match t.pyFloat with
  | some f => .ok f
  | none => .error .valueError

/-- Parsing one body line (the loop body at lines 302-319 of the source):
split, convert tokens 1-3 to float in order, raise on any NaN, then take
token 0 as the element. -/
def parseBody (l : Line) : Except Err Atom := do
  let t1 ← tokAt l 1
  let x ← floatE t1
  let t2 ← tokAt l 2
  let y ← floatE t2
  let t3 ← tokAt l 3
  let z ← floatE t3
  if x.isnan || y.isnan || z.isnan then
    .error (.nanCoord x y z)
  else do
    let t0 ← tokAt l 0
    .ok ⟨t0, x, y, z⟩

/-- Parsing the model starting at line `ind` with declared atom count
`count`: `lines_cut = self.lines[ind : ind+2+count]` (a Python slice,
clamped at the end of the buffer), the structural-mismatch check, then
the body lines. -/
def parseModel (lines : List Line) (ind count : ℕ) : Except Err (List Atom) := do
  let cut := (lines.drop ind).take (count + 2)
  if count + 2 ≠ cut.length then
    .error (.countMismatch count cut.length)
  else
    mapE parseBody (cut.drop 2)

/-- `biotite.structure.stack`: fails on an empty model list and on
models whose element annotation arrays disagree. -/
def strucStack (ms : List (List Atom)) : Except Err (List (List Atom)) :=
  match ms with
  | [] => .error .stackError
  | m0 :: rest =>
      if rest.all (fun m => m.map Atom.element = m0.map Atom.element) then
        .ok (m0 :: rest)
      else
        .error .stackError

/-- `self._structures[model]` for an explicit model index: Python/numpy
integer indexing with negative wrap-around. -/
def pyIndex (stk : List (List Atom)) (m : ℤ) : Except Err StructRes :=
  let idx : ℤ := if m < 0 then m + stk.length else m
  if 0 ≤ idx ∧ idx < (stk.length : ℤ) then
    .ok (.one (stk.getD idx.toNat []))
  else
    .error .indexError

/-- The parse pipeline of `get_structure` up to and including
`struc.stack`: header materialisation (whose errors propagate), one
`parseModel` per start index in order, then stacking. -/
def parsePipeline (lines : List Line) : Except Err (List (List Atom)) := do
  let _ ← getHeader lines none
  let inds := startInds lines
  let counts := headerCounts lines
  let ms ← mapE (fun p => parseModel lines p.1 p.2) (inds.zip counts)
  strucStack ms

/-- `XYZFile.get_structure` on a fresh file: the empty-buffer check,
the pipeline, then the dispatch on the `model` argument (a one-model
stack is unwrapped when `model` is omitted). -/
def getStructure (lines : List Line) (model : Option ℤ) : Except Err StructRes := do
  if lines.length ≤ 2 then
    .error .emptyFile
  else
    let stk ← parsePipeline lines
    match model with
    | none =>
        if stk.length = 1 then
          .ok (.one (stk.getD 0 []))
        else
          .ok (.many stk)
    | some m => pyIndex stk m

/-! ### Body codec: serialization (`XYZFile.set_structure`) -/

/-- Rounding a rational to 6 decimal places: the value recovered when a
float is formatted with `"{:.6f}"` and parsed back.  The exact
tie-breaking of the binary formatter is immaterial: any nearest-rounding
satisfies the 6-decimal-place tolerance. -/
def round6 (q : ℚ) : ℚ :=
  (round (q * 1000000) : ℚ) / 1000000

/-- The token produced by `"{:11.6f}".format(c)` for a coordinate `c`
(the justification direction only pads with whitespace): a decimal
literal for finite values, `"nan"` / `"inf"` / `"-inf"` otherwise. -/
def fmtTok : PyFloat → Token
  | .finite q => .decTok (round6 q)
  | .nan => .nanTok
  | .inf => .infTok
  | .ninf => .ninfTok

/-- The value a formatted coordinate parses back to. -/
def pfRound : PyFloat → PyFloat
  | .finite q => .finite (round6 q)
  | .nan => .nan
  | .inf => .inf
  | .ninf => .ninf

/-- The atom a serialized atom parses back to. -/
def parsedOf (a : Atom) : Atom :=
  ⟨a.element, pfRound a.x, pfRound a.y, pfRound a.z⟩

/-- One serialized body line:
`"  " + str(atom.element) + " {:11.6f}..."` — the element token followed
by the three formatted coordinates. -/
def bodyLine (a : Atom) : Line :=
  [a.element, fmtTok a.x, fmtTok a.y, fmtTok a.z]

/-- The body-writing loop
`for j, atom in enumerate(atoms): self.lines[base + j] = line`
(with `base` the index of the first body line of the model). -/
def writeBody (base : ℕ) : List Atom → List Line → List Line
  | [], ls => ls
  | a :: rest, ls => writeBody (base + 1) rest (ls.set base (bodyLine a))

/-- `XYZFile.set_structure` on a fresh file (`lines = ["", ""]`) with an
`AtomArray` argument: set line 0 to the atom count, line 1 to the default
name (line 1 of a fresh file is empty), extend by one empty line per
atom, then write the body lines starting at index 2. -/
def setStructureSingle (atoms : List Atom) : List Line :=
  let ls : List Line := [[], []]
  let ls := ls.set 0 [Token.natTok atoms.length]
  let ls := if (ls.getD 1 []).length = 0 then ls.set 1 [Token.word "[MOLNAME]"] else ls
  writeBody 2 atoms (ls ++ List.replicate atoms.length [])

/-- An `AtomArrayStack`: one shared element annotation array and one
coordinate triple per atom per model (numpy shape `(models, atoms, 3)`,
so every model has `elements.length` coordinate rows). -/
structure StackInput where
  elements : List Token
  coords : List (List (PyFloat × PyFloat × PyFloat))
deriving DecidableEq, Repr

/-- The `AtomArray` of model `i` of a stack: shared elements zipped with
that model's coordinates. -/
def mkModel (elements : List Token) (cs : List (PyFloat × PyFloat × PyFloat)) :
    List Atom :=
  (elements.zip cs).map (fun p => ⟨p.1, p.2.1, p.2.2.1, p.2.2.2⟩)

/-- The model-writing loop of the stack branch: for model `i`, write the
count line (`str(atoms[0].shape[0])`, always the first model's count),
the name line (`" " + str(i)`, a digit token), then the body lines at
offset `i*npm + 2`. -/
def writeModels (npm n0 : ℕ) (i : ℕ) : List (List Atom) → List Line → List Line
  | [], ls => ls
  | m :: rest, ls =>
      let ls1 := (ls.set (i * npm) [Token.natTok n0]).set (i * npm + 1) [Token.natTok i]
      writeModels npm n0 (i + 1) rest (writeBody (i * npm + 2) m ls1)

/-- `XYZFile.set_structure` on a fresh file with an `AtomArrayStack`
argument: `n_lines_per_model = atoms[0].shape[0] + 2` (an `IndexError`
on an empty stack), extend the two-line fresh buffer by
`n_lines_per_model * len(atoms)` empty lines, then write every model
block starting at index 0 — overwriting the two initial header
placeholder lines and leaving the last two lines empty. -/
def setStructureStack (s : StackInput) : Except Err (List Line) :=
  match s.coords with
  | [] => .error .indexError
  | c0 :: _ =>
      let n0 := (mkModel s.elements c0).length
      let npm := n0 + 2
      let init : List Line := [[], []] ++ List.replicate (npm * s.coords.length) []
      .ok (writeModels npm n0 0 (s.coords.map (mkModel s.elements)) init)

/-- The block of lines that the stack branch writes for model `i`. -/
def blockOf (n0 i : ℕ) (m : List Atom) : List Line :=
  [Token.natTok n0] :: [Token.natTok i] :: m.map bodyLine

/-- The blocks laid out by `writeModels` for models numbered from `i`. -/
def blocksFrom (n0 : ℕ) (i : ℕ) : List (List Atom) → List (List Line)
  | [] => []
  | m :: rest => blockOf n0 i m :: blocksFrom n0 (i + 1) rest

/-- The blocks written for the models of a stack, in order. -/
def stackBlocks (s : StackInput) : List (List Line) :=
  blocksFrom s.elements.length 0 (s.coords.map (mkModel s.elements))

/-- The candidate pattern of a uniform multi-model buffer: for each of
`k` models a count-line index and the adjacent name-line index, blocks
`npm` lines apart. -/
def pairsFrom (npm : ℕ) (base : ℕ) : ℕ → List ℕ
  | 0 => []
  | k + 1 => base :: (base + 1) :: pairsFrom npm (base + npm) k

/-- The surviving boundary indices of that pattern: one per block. -/
def startsFrom (npm : ℕ) (base : ℕ) : ℕ → List ℕ
  | 0 => []
  | k + 1 => base :: startsFrom npm (base + npm) k

/-- Closeness of two Python floats at 6-decimal-place tolerance:
finite values within 10⁻⁶ of each other, non-finite values equal. -/
def coordClose : PyFloat → PyFloat → Prop
  | .finite a, .finite b => |a - b| ≤ 1 / 1000000
  | .inf, .inf => True
  | .ninf, .ninf => True
  | .nan, .nan => True
  | _, _ => False

/-! ### Generic helpers -/

instance {ε : Type u} {α : Type v} [DecidableEq ε] [DecidableEq α] :
    DecidableEq (Except ε α) := fun x y =>
  match x, y with
  | .ok a, .ok b => decidable_of_iff (a = b) (by simp)
  | .error e, .error f => decidable_of_iff (e = f) (by simp)
  | .ok _, .error _ => isFalse (fun h => Except.noConfusion h)
  | .error _, .ok _ => isFalse (fun h => Except.noConfusion h)

@[simp] theorem exc_ok_bind {ε : Type u} (a : α) (f : α → Except ε β) :
    (Except.ok a >>= f) = f a := rfl

@[simp] theorem exc_error_bind {ε : Type u} (e : ε) (f : α → Except ε β) :
    ((Except.error e : Except ε α) >>= f) = .error e := rfl

theorem mapE_ok_of_forall {f : α → Except Err β} {g : α → β} :
    ∀ {l : List α}, (∀ a ∈ l, f a = .ok (g a)) → mapE f l = .ok (l.map g)
  | [], _ => rfl
  | a :: as, h => by
      have ha := h a (List.mem_cons_self a as)
      have hrest := mapE_ok_of_forall (fun b hb => h b (List.mem_cons_of_mem a hb))
      simp [mapE, ha, hrest]

theorem mapE_error_at {f : α → Except Err β} {e : Err} :
    ∀ {xs : List α} {y : α} {zs : List α},
      (∀ x ∈ xs, ∃ b, f x = .ok b) → f y = .error e →
      mapE f (xs ++ y :: zs) = .error e
  | [], y, zs, _, hy => by simp [mapE, hy]
  | x :: xs, y, zs, hok, hy => by
      obtain ⟨b, hb⟩ := hok x (List.mem_cons_self x xs)
      have hrest : mapE f (xs ++ y :: zs) = .error e :=
        mapE_error_at (fun a ha => hok a (List.mem_cons_of_mem x ha)) hy
      simp [mapE, hb, hrest]

theorem mapE_ok_mem {f : α → Except Err β} :
    ∀ {l : List α} {bs : List β}, mapE f l = .ok bs →
      ∀ b ∈ bs, ∃ a ∈ l, f a = .ok b
  | [], bs, h => by
      simp only [mapE] at h
      cases h
      intro b hb
      cases hb
  | a :: as, bs, h => by
      intro b hb
      rcases ha : f a with e | b0
      · simp [mapE, ha] at h
      · rcases hrest : mapE f as with e | bs0
        · simp [mapE, ha, hrest] at h
        · simp only [mapE, ha, hrest, bind, Except.bind] at h
          cases h
          rcases List.mem_cons.mp hb with hb0 | hbs
          · exact ⟨a, List.mem_cons_self a as, hb0 ▸ ha⟩
          · obtain ⟨a1, ha1, hfa1⟩ := mapE_ok_mem hrest b hbs
            exact ⟨a1, List.mem_cons_of_mem a ha1, hfa1⟩

theorem mapE_length_ok {f : α → Except Err β} :
    ∀ {l : List α} {bs : List β}, mapE f l = .ok bs → bs.length = l.length
  | [], bs, h => by simp only [mapE] at h; cases h; rfl
  | a :: as, bs, h => by
      rcases ha : f a with e | b0
      · simp [mapE, ha] at h
      · rcases hrest : mapE f as with e | bs0
        · simp [mapE, ha, hrest] at h
        · simp only [mapE, ha, hrest, bind, Except.bind] at h
          cases h
          simp [mapE_length_ok hrest]

/-! ### Lemmas on the index scans -/

theorem idxWhere_nil (p : Line → Bool) : idxWhere p [] = [] := rfl

theorem idxWhere_cons (p : Line → Bool) (l : Line) (ls : List Line) :
    idxWhere p (l :: ls) =
      (if p l then [0] else []) ++ (idxWhere p ls).map (· + 1) := by
  show (List.range (l :: ls).length).filter (fun i => p ((l :: ls).getD i [])) = _
  rw [List.length_cons, List.range_succ_eq_map, List.filter_cons, List.filter_map]
  have hcomp : ((fun i => p ((l :: ls).getD i [])) ∘ Nat.succ)
      = fun i => p (ls.getD i []) := rfl
  rw [hcomp]
  have hmap : List.map Nat.succ
        ((List.range ls.length).filter (fun i => p (ls.getD i [])))
      = (idxWhere p ls).map (· + 1) := by
    unfold idxWhere
    simp [Nat.succ_eq_add_one]
  rw [hmap]
  by_cases h : p l
  · simp only [List.getD_cons_zero, h, if_true]
    rfl
  · simp only [List.getD_cons_zero, h, Bool.false_eq_true, if_false, List.nil_append]

theorem idxWhere_append (p : Line → Bool) (xs ys : List Line) :
    idxWhere p (xs ++ ys) =
      idxWhere p xs ++ (idxWhere p ys).map (· + xs.length) := by
  induction xs with
  | nil => simp [idxWhere_nil, idxWhere]
  | cons x xs ih =>
      have hfun : ((· + 1) ∘ (· + xs.length) : ℕ → ℕ) = (· + (x :: xs).length) := by
        funext i
        simp only [Function.comp_apply, List.length_cons]
        omega
      simp only [List.cons_append, idxWhere_cons, ih, List.map_append, List.map_map,
        hfun, List.append_assoc]

theorem idxWhere_none (p : Line → Bool) {ls : List Line}
    (h : ∀ l ∈ ls, p l = false) : idxWhere p ls = [] := by
  induction ls with
  | nil => rfl
  | cons x xs ih =>
      rw [idxWhere_cons, h x (List.mem_cons_self x xs),
        ih (fun l hl => h l (List.mem_cons_of_mem x hl))]
      simp

theorem idxWhere_length (p : Line → Bool) (ls : List Line) :
    (idxWhere p ls).length = ls.countP p := by
  induction ls with
  | nil => rfl
  | cons x xs ih =>
      rw [idxWhere_cons, List.countP_cons]
      by_cases h : p x <;> simp [h, ih]

theorem isNumericLine_bodyLine (a : Atom) : isNumericLine (bodyLine a) = false := by
  obtain ⟨e, x, y, z⟩ := a
  cases e <;> rfl

/-! ### Lemmas on the purge pass -/

theorem pairsFrom_length (npm : ℕ) : ∀ (k base : ℕ), (pairsFrom npm base k).length = 2 * k
  | 0, _ => rfl
  | k + 1, base => by
      simp only [pairsFrom, List.length_cons, pairsFrom_length npm k (base + npm)]
      omega

theorem startsFrom_length (npm : ℕ) : ∀ (k base : ℕ), (startsFrom npm base k).length = k
  | 0, _ => rfl
  | k + 1, base => by
      simp only [startsFrom, List.length_cons, startsFrom_length npm k (base + npm)]

theorem map_add_pairsFrom (npm d : ℕ) :
    ∀ (k base : ℕ), (pairsFrom npm base k).map (· + d) = pairsFrom npm (base + d) k
  | 0, _ => rfl
  | k + 1, base => by
      have ih := map_add_pairsFrom npm d k (base + npm)
      have harith : base + npm + d = base + d + npm := by omega
      have harith2 : base + 1 + d = base + d + 1 := by omega
      simp only [pairsFrom, List.map_cons, ih, harith, harith2]

theorem purgeAux_pairsFrom {npm : ℕ} (h3 : 3 ≤ npm) :
    ∀ (k base prev : ℕ), prev + 2 ≤ base →
      purgeAux prev (pairsFrom npm base k) = startsFrom npm base k
  | 0, _, _, _ => rfl
  | k + 1, base, prev, hp => by
      have h1 : ¬ base = prev + 1 := by omega
      have ih := purgeAux_pairsFrom h3 k (base + npm) (base + 1) (by omega)
      simp [pairsFrom, purgeAux, startsFrom, h1, ih]

/-- The boundary detector on a buffer whose candidate scan yields the
uniform pair pattern of `k ≥ 1` models with `npm ≥ 3` lines per model. -/
theorem startInds_pairs {lines : List Line} {npm k : ℕ} (h3 : 3 ≤ npm) (hk : 1 ≤ k)
    (hc : candidateInds lines = pairsFrom npm 0 k) :
    startInds lines = startsFrom npm 0 k := by
  unfold startInds
  rw [hc]
  have hlen : (pairsFrom npm 0 k).length = 2 * k := pairsFrom_length npm k 0
  rw [if_pos (by omega)]
  obtain ⟨k0, rfl⟩ : ∃ k0, k = k0 + 1 := ⟨k - 1, by omega⟩
  have hrest := purgeAux_pairsFrom h3 k0 npm 1 (by omega)
  simp [pairsFrom, purgeAux, startsFrom, hrest]

/-! ### Layout of the serialized buffers -/

theorem writeBody_length : ∀ (atoms : List Atom) (base : ℕ) (ls : List Line),
    (writeBody base atoms ls).length = ls.length
  | [], _, _ => rfl
  | a :: rest, base, ls => by
      rw [writeBody, writeBody_length rest (base + 1), List.length_set]

theorem writeBody_eq : ∀ (atoms : List Atom) (base : ℕ) (ls : List Line),
    base + atoms.length ≤ ls.length →
    writeBody base atoms ls =
      ls.take base ++ atoms.map bodyLine ++ ls.drop (base + atoms.length)
  | [], base, ls, _ => by
      simp [writeBody, List.take_append_drop]
  | a :: rest, base, ls, h => by
      have hb : base < ls.length := by
        simp only [List.length_cons] at h
        omega
      have ih := writeBody_eq rest (base + 1) (ls.set base (bodyLine a)) (by
        rw [List.length_set]
        simp only [List.length_cons] at h
        omega)
      rw [writeBody, ih, List.set_eq_take_cons_drop _ hb]
      have htl : (ls.take base).length = base := by
        rw [List.length_take]
        omega
      have h1 : (ls.take base ++ bodyLine a :: ls.drop (base + 1)).take (base + 1)
          = ls.take base ++ [bodyLine a] := by
        conv_lhs => rw [show base + 1 = (ls.take base).length + 1 by rw [htl]]
        rw [List.take_append]
        rfl
      have h2 : (ls.take base ++ bodyLine a :: ls.drop (base + 1)).drop
            (base + 1 + rest.length)
          = ls.drop (base + (a :: rest).length) := by
        conv_lhs => rw [show base + 1 + rest.length
          = (ls.take base).length + (rest.length + 1) by rw [htl]; omega]
        rw [List.drop_append, List.drop_succ_cons, List.drop_drop]
        congr 1
        simp only [List.length_cons]
        omega
      rw [h1, h2]
      simp [List.append_assoc]

theorem blockOf_length (n0 i : ℕ) (m : List Atom) :
    (blockOf n0 i m).length = m.length + 2 := by
  simp [blockOf]

/-- Writing one model block (count line, name line, body lines) at
offset `a` rewrites exactly the `block` span and nothing else. -/
theorem writeBlock_eq (ls : List Line) (a : ℕ) (A B : Line) (m : List Atom)
    (h : a + 2 + m.length ≤ ls.length) :
    writeBody (a + 2) m ((ls.set a A).set (a + 1) B)
      = ls.take a ++ A :: B :: m.map bodyLine ++ ls.drop (a + 2 + m.length) := by
  have ha : a < ls.length := by omega
  have ha1 : a + 1 < (ls.set a A).length := by
    rw [List.length_set]
    omega
  have htl : (ls.take a).length = a := by
    rw [List.length_take]
    omega
  have hdecomp : (ls.set a A).set (a + 1) B
      = ls.take a ++ A :: B :: ls.drop (a + 2) := by
    rw [List.set_eq_take_cons_drop _ ha1]
    have htake : (ls.set a A).take (a + 1) = ls.take a ++ [A] := by
      rw [List.set_eq_take_cons_drop _ ha]
      conv_lhs => rw [show a + 1 = (ls.take a).length + 1 by rw [htl]]
      rw [List.take_append]
      rfl
    have hdrop : (ls.set a A).drop (a + 1 + 1) = ls.drop (a + 2) := by
      rw [List.set_eq_take_cons_drop _ ha]
      conv_lhs => rw [show a + 1 + 1 = (ls.take a).length + (1 + 1) by rw [htl]]
      rw [List.drop_append]
      show (ls.drop (a + 1)).drop 1 = _
      rw [List.drop_drop]
    rw [htake, hdrop]
    simp [List.append_assoc]
  rw [hdecomp]
  have hlen2 : (ls.take a ++ A :: B :: ls.drop (a + 2)).length = ls.length := by
    simp only [List.length_append, List.length_cons, htl, List.length_drop]
    omega
  rw [writeBody_eq m (a + 2) _ (by rw [hlen2]; omega)]
  have h1 : (ls.take a ++ A :: B :: ls.drop (a + 2)).take (a + 2)
      = ls.take a ++ [A, B] := by
    conv_lhs => rw [show a + 2 = (ls.take a).length + 2 by rw [htl]]
    rw [List.take_append]
    rfl
  have h2 : (ls.take a ++ A :: B :: ls.drop (a + 2)).drop (a + 2 + m.length)
      = ls.drop (a + 2 + m.length) := by
    conv_lhs => rw [show a + 2 + m.length = (ls.take a).length + (m.length + 2) by rw [htl]; omega]
    rw [List.drop_append, show m.length + 2 = m.length + 1 + 1 by omega,
      List.drop_succ_cons, List.drop_succ_cons, List.drop_drop]
  rw [h1, h2]
  simp [List.append_assoc]

theorem writeModels_eq {npm n0 : ℕ} (hnpm : npm = n0 + 2) :
    ∀ (ms : List (List Atom)) (i : ℕ) (ls : List Line),
    (∀ m ∈ ms, m.length = n0) →
    i * npm + ms.length * npm ≤ ls.length →
    writeModels npm n0 i ms ls =
      ls.take (i * npm) ++ (blocksFrom n0 i ms).flatten
        ++ ls.drop (i * npm + ms.length * npm)
  | [], i, ls, _, _ => by
      simp [writeModels, blocksFrom, List.take_append_drop]
  | m :: rest, i, ls, hlen, hfit => by
      have hm : m.length = n0 := hlen m (List.mem_cons_self m rest)
      have hB : (m :: rest).length * npm = rest.length * npm + npm := by
        rw [List.length_cons]
        ring
      have hC : (i + 1) * npm = i * npm + npm := by
        ring
      have hD : m.length + 2 = npm := by
        rw [hm, hnpm]
      have hfit1 : i * npm + 2 + m.length ≤ ls.length := by
        omega
      have hblock := writeBlock_eq ls (i * npm) [Token.natTok n0] [Token.natTok i] m hfit1
      rw [writeModels, hblock]
      have harith : i * npm + 2 + m.length = (i + 1) * npm := by
        omega
      set L : List Line :=
        ls.take (i * npm) ++ [Token.natTok n0] :: [Token.natTok i] :: m.map bodyLine
          ++ ls.drop (i * npm + 2 + m.length) with hL
      have hLlen : L.length = ls.length := by
        rw [hL]
        simp only [List.length_append, List.length_cons, List.length_map, List.length_drop,
          List.length_take]
        omega
      have ih := writeModels_eq hnpm rest (i + 1) L
        (fun x hx => hlen x (List.mem_cons_of_mem m hx))
        (by
          rw [hLlen]
          omega)
      rw [ih]
      have htl : (ls.take (i * npm)).length = i * npm := by
        rw [List.length_take]
        omega
      have hblk : ([Token.natTok n0] :: [Token.natTok i] :: m.map bodyLine
          : List Line).length = npm := by
        simp only [List.length_cons, List.length_map]
        omega
      have h1 : L.take ((i + 1) * npm)
          = ls.take (i * npm) ++ [Token.natTok n0] :: [Token.natTok i] :: m.map bodyLine := by
        rw [hL, harith]
        conv_lhs => rw [show (i + 1) * npm = (ls.take (i * npm)).length
          + ([Token.natTok n0] :: [Token.natTok i] :: m.map bodyLine : List Line).length by
            rw [htl, hblk]; ring]
        rw [List.append_assoc, List.take_append]
        rw [List.take_left]
      have h2 : L.drop ((i + 1) * npm + rest.length * npm)
          = ls.drop (i * npm + (m :: rest).length * npm) := by
        rw [hL, harith]
        conv_lhs => rw [show (i + 1) * npm + rest.length * npm
          = (ls.take (i * npm)).length
            + (([Token.natTok n0] :: [Token.natTok i] :: m.map bodyLine : List Line).length
              + rest.length * npm) by rw [htl, hblk]; ring]
        rw [List.append_assoc, List.drop_append]
        conv_lhs => rw [show ([Token.natTok n0] :: [Token.natTok i] :: m.map bodyLine
            : List Line).length + rest.length * npm
          = ([Token.natTok n0] :: [Token.natTok i] :: m.map bodyLine : List Line).length
            + rest.length * npm by rfl]
        rw [List.drop_append, List.drop_drop]
        congr 1
        simp only [List.length_cons]
        ring
      rw [h1, h2]
      show _ = ls.take (i * npm)
          ++ (blockOf n0 i m :: blocksFrom n0 (i + 1) rest).flatten
          ++ ls.drop (i * npm + (m :: rest).length * npm)
      rw [List.flatten_cons]
      simp only [blockOf, List.append_assoc]

/-- The buffer written by `set_structure` for a single `AtomArray`:
count line, default name line, one body line per atom. -/
theorem setStructureSingle_eq (atoms : List Atom) :
    setStructureSingle atoms =
      [Token.natTok atoms.length] :: [Token.word "[MOLNAME]"] :: atoms.map bodyLine := by
  show writeBody 2 atoms
      (([[Token.natTok atoms.length], [Token.word "[MOLNAME]"]] : List Line)
        ++ List.replicate atoms.length []) = _
  have hlen : (([[Token.natTok atoms.length], [Token.word "[MOLNAME]"]] : List Line)
      ++ List.replicate atoms.length []).length = 2 + atoms.length := by
    simp only [List.length_append, List.length_cons, List.length_nil, List.length_replicate]
  rw [writeBody_eq atoms 2 _ (by rw [hlen])]
  have h1 : (([[Token.natTok atoms.length], [Token.word "[MOLNAME]"]] : List Line)
      ++ List.replicate atoms.length []).take 2
      = [[Token.natTok atoms.length], [Token.word "[MOLNAME]"]] :=
    List.take_left' rfl
  have h2 : (([[Token.natTok atoms.length], [Token.word "[MOLNAME]"]] : List Line)
      ++ List.replicate atoms.length []).drop (2 + atoms.length)
      = [] := by
    have : (2 : ℕ) + atoms.length = atoms.length + 2 := by omega
    rw [this]
    have hd : ∀ (R : List Line) (t : ℕ), R.length = t → (([[Token.natTok atoms.length],
        [Token.word "[MOLNAME]"]] : List Line) ++ R).drop (t + 2) = [] := by
      intro R t ht
      have : t + 2 = (([[Token.natTok atoms.length],
          [Token.word "[MOLNAME]"]] : List Line)).length + t := by
        simp only [List.length_cons, List.length_nil]
        omega
      rw [this, List.drop_append, ← ht, List.drop_length]
    exact hd _ _ (List.length_replicate _ _)
  rw [h1, h2]
  simp

theorem mkModel_length {elements : List Token} {c : List (PyFloat × PyFloat × PyFloat)}
    (h : c.length = elements.length) : (mkModel elements c).length = elements.length := by
  simp [mkModel, List.length_zip, h]

/-- The buffer written by `set_structure` for an `AtomArrayStack` with at
least one model: the model blocks, then the two left-over empty lines. -/
theorem setStructureStack_eq (s : StackInput)
    (hrows : ∀ c ∈ s.coords, c.length = s.elements.length)
    (hne : s.coords ≠ []) :
    setStructureStack s = .ok ((stackBlocks s).flatten ++ [[], []]) := by
  rcases hcs : s.coords with _ | ⟨c0, rest⟩
  · exact absurd hcs hne
  unfold setStructureStack stackBlocks
  rw [hcs]
  have hc0 : c0.length = s.elements.length := hrows c0 (by rw [hcs]; exact List.mem_cons_self _ _)
  have hn0 : (mkModel s.elements c0).length = s.elements.length := mkModel_length hc0
  have hml : ∀ m ∈ (c0 :: rest).map (mkModel s.elements),
      m.length = (mkModel s.elements c0).length := by
    intro m hm
    rw [List.mem_map] at hm
    obtain ⟨c, hc, rfl⟩ := hm
    rw [mkModel_length (hrows c (by rw [hcs]; exact hc)), hn0]
  set n0 := (mkModel s.elements c0).length with hn0def
  set npm := n0 + 2 with hnpm
  set k := ((c0 :: rest).map (mkModel s.elements)).length with hk
  have hinit : (([[], []] : List Line) ++ List.replicate (npm * (c0 :: rest).length) []).length
      = 2 + npm * (c0 :: rest).length := by
    simp only [List.length_append, List.length_cons, List.length_nil, List.length_replicate]
  have hkc : k = (c0 :: rest).length := by
    rw [hk, List.length_map]
  have hmulcomm : k * npm = npm * (c0 :: rest).length := by
    rw [hkc, Nat.mul_comm]
  have hw := writeModels_eq hnpm ((c0 :: rest).map (mkModel s.elements)) 0
    (([[], []] : List Line) ++ List.replicate (npm * (c0 :: rest).length) [])
    hml
    (by rw [hinit, Nat.zero_mul, ← hk, hmulcomm]; omega)
  rw [Nat.zero_mul] at hw
  simp only [Except.ok.injEq]
  rw [hw, List.take_zero, List.nil_append, Nat.zero_add, ← hk, hmulcomm]
  have hdrop2 : (([[], []] : List Line)
      ++ List.replicate (npm * (c0 :: rest).length) []).drop (npm * (c0 :: rest).length)
      = [[], []] := by
    have hrep : (([[], []] : List Line) ++ List.replicate (npm * (c0 :: rest).length) [])
        = List.replicate (npm * (c0 :: rest).length + 2) [] := by
      rw [show npm * (c0 :: rest).length + 2 = npm * (c0 :: rest).length + 1 + 1 from rfl,
        List.replicate_succ, List.replicate_succ]
      rfl
    rw [hrep, List.drop_replicate,
      show npm * (c0 :: rest).length + 2 - npm * (c0 :: rest).length = 2 by omega]
    rfl
  rw [hdrop2, hn0]

/-! ### Reading the serialized buffers back -/

theorem getD_of_drop_cons {l : List Line} {n : ℕ} {x : Line} {xs : List Line}
    (h : l.drop n = x :: xs) : l.getD n [] = x := by
  have h0 : (l.drop n)[0]? = some x := by rw [h]; simp
  rw [List.getElem?_drop] at h0
  simp only [Nat.add_zero] at h0
  simp [List.getD_eq_getElem?_getD, h0]

theorem blocksFrom_flatten_length {n0 : ℕ} :
    ∀ (ms : List (List Atom)) (i : ℕ), (∀ m ∈ ms, m.length = n0) →
      ((blocksFrom n0 i ms).flatten).length = ms.length * (n0 + 2)
  | [], _, _ => by simp [blocksFrom]
  | m :: rest, i, h => by
      have hm : m.length = n0 := h m (List.mem_cons_self m rest)
      have ih := blocksFrom_flatten_length rest (i + 1)
        (fun x hx => h x (List.mem_cons_of_mem m hx))
      simp only [blocksFrom, List.flatten_cons, List.length_append, ih, blockOf_length, hm,
        List.length_cons]
      ring

theorem drop_flatten_blocksFrom {n0 npm : ℕ} (hnpm : npm = n0 + 2) (T : List Line) :
    ∀ (t : ℕ) (ms : List (List Atom)) (i : ℕ), (∀ m ∈ ms, m.length = n0) →
      t ≤ ms.length →
      ((blocksFrom n0 i ms).flatten ++ T).drop (t * npm)
        = (blocksFrom n0 (i + t) (ms.drop t)).flatten ++ T
  | 0, ms, i, _, _ => by simp
  | t + 1, [], _, _, ht => by simp at ht
  | t + 1, m :: rest, i, h, ht => by
      have hm : m.length = n0 := h m (List.mem_cons_self m rest)
      have hblk : (blockOf n0 i m).length = npm := by
        rw [blockOf_length, hm, hnpm]
      have ih := drop_flatten_blocksFrom hnpm T t rest (i + 1)
        (fun x hx => h x (List.mem_cons_of_mem m hx))
        (by simpa using ht)
      show ((blockOf n0 i m :: blocksFrom n0 (i + 1) rest).flatten ++ T).drop ((t + 1) * npm)
        = _
      rw [List.flatten_cons, List.append_assoc]
      conv_lhs => rw [show (t + 1) * npm = (blockOf n0 i m).length + t * npm by rw [hblk]; ring]
      rw [List.drop_append, ih]
      have : i + 1 + t = i + (t + 1) := by omega
      rw [this]
      rfl

theorem take_flatten_blocksFrom {n0 npm : ℕ} (hnpm : npm = n0 + 2) (T : List Line)
    (m : List Atom) (ms : List (List Atom)) (i : ℕ) (hm : m.length = n0) :
    ((blocksFrom n0 i (m :: ms)).flatten ++ T).take npm = blockOf n0 i m := by
  rw [show blocksFrom n0 i (m :: ms) = blockOf n0 i m :: blocksFrom n0 (i + 1) ms from rfl,
    List.flatten_cons, List.append_assoc]
  exact List.take_left' (by rw [blockOf_length, hm, hnpm])

theorem candidateInds_blockOf_append {n0 i : ℕ} {m : List Atom} (X : List Line) :
    candidateInds (blockOf n0 i m ++ X)
      = [0, 1] ++ (candidateInds X).map (· + (m.length + 2)) := by
  unfold candidateInds
  rw [show blockOf n0 i m ++ X
      = [Token.natTok n0] :: [Token.natTok i] :: (m.map bodyLine ++ X) from by
    simp [blockOf]]
  rw [idxWhere_cons, idxWhere_cons, idxWhere_append]
  have hbody : idxWhere isNumericLine (m.map bodyLine) = [] := by
    apply idxWhere_none
    intro l hl
    rw [List.mem_map] at hl
    obtain ⟨a, _, rfl⟩ := hl
    exact isNumericLine_bodyLine a
  rw [hbody,
    show isNumericLine [Token.natTok n0] = true from rfl,
    show isNumericLine [Token.natTok i] = true from rfl]
  simp only [if_true, List.nil_append, List.map_append, List.map_map, List.map_cons,
    List.map_nil, List.length_map, List.cons_append, List.singleton_append]
  refine congrArg (fun t => 0 :: 1 :: t) ?_
  apply List.map_congr_left
  intro a _
  simp only [Function.comp_apply]
  omega

theorem candidateInds_blocks {n0 npm : ℕ} (hnpm : npm = n0 + 2) :
    ∀ (ms : List (List Atom)) (i : ℕ), (∀ m ∈ ms, m.length = n0) →
      candidateInds ((blocksFrom n0 i ms).flatten ++ [[], []])
        = pairsFrom npm 0 ms.length
  | [], _, _ => rfl
  | m :: rest, i, h => by
      have hm : m.length = n0 := h m (List.mem_cons_self m rest)
      have ih := candidateInds_blocks hnpm rest (i + 1)
        (fun x hx => h x (List.mem_cons_of_mem m hx))
      show candidateInds ((blockOf n0 i m :: blocksFrom n0 (i + 1) rest).flatten ++ [[], []])
        = _
      rw [List.flatten_cons, List.append_assoc, candidateInds_blockOf_append, ih, hm,
        ← hnpm, map_add_pairsFrom]
      simp [pairsFrom]

theorem mem_startsFrom {npm : ℕ} :
    ∀ {k base x : ℕ}, x ∈ startsFrom npm base k → ∃ t, t < k ∧ x = base + t * npm := by
  intro k
  induction k with
  | zero => intro base x hx; cases hx
  | succ k ih =>
      intro base x hx
      rcases List.mem_cons.mp hx with h0 | hrest
      · exact ⟨0, by omega, by omega⟩
      · obtain ⟨t, ht, rfl⟩ := ih hrest
        exact ⟨t + 1, by omega, by ring⟩

theorem map_eq_replicate_of_mem {α : Type u} {f : ℕ → α} {c : α} :
    ∀ {l : List ℕ}, (∀ x ∈ l, f x = c) → l.map f = List.replicate l.length c
  | [], _ => rfl
  | x :: xs, h => by
      rw [List.map_cons, h x (List.mem_cons_self x xs),
        map_eq_replicate_of_mem (fun y hy => h y (List.mem_cons_of_mem x hy))]
      rfl

theorem map_getD_range {α : Type u} (d : α) : ∀ (l : List α),
    (List.range l.length).map (fun i => l.getD i d) = l
  | [] => rfl
  | a :: l => by
      rw [List.length_cons, List.range_succ_eq_map, List.map_cons, List.map_map]
      have hcomp : ((fun i => (a :: l).getD i d) ∘ Nat.succ) = fun i => l.getD i d := rfl
      rw [hcomp, map_getD_range d l]
      rfl

theorem pyFloat_fmtTok (f : PyFloat) : (fmtTok f).pyFloat = some (pfRound f) := by
  cases f <;> rfl

theorem isnan_pfRound (f : PyFloat) : (pfRound f).isnan = f.isnan := by
  cases f <;> rfl

theorem element_parsedOf (a : Atom) : (parsedOf a).element = a.element := rfl

/-- A serialized body line parses back to the atom with rounded
coordinates, provided no coordinate is NaN. -/
theorem parseBody_bodyLine (a : Atom)
    (hx : a.x.isnan = false) (hy : a.y.isnan = false) (hz : a.z.isnan = false) :
    parseBody (bodyLine a) = .ok (parsedOf a) := by
  obtain ⟨e, x, y, z⟩ := a
  simp only at hx hy hz
  have h1 : tokAt (bodyLine ⟨e, x, y, z⟩) 1 = .ok (fmtTok x) := rfl
  have h2 : tokAt (bodyLine ⟨e, x, y, z⟩) 2 = .ok (fmtTok y) := rfl
  have h3 : tokAt (bodyLine ⟨e, x, y, z⟩) 3 = .ok (fmtTok z) := rfl
  have h0 : tokAt (bodyLine ⟨e, x, y, z⟩) 0 = .ok e := rfl
  have hfx : floatE (fmtTok x) = .ok (pfRound x) := by
    simp [floatE, pyFloat_fmtTok]
  have hfy : floatE (fmtTok y) = .ok (pfRound y) := by
    simp [floatE, pyFloat_fmtTok]
  have hfz : floatE (fmtTok z) = .ok (pfRound z) := by
    simp [floatE, pyFloat_fmtTok]
  simp only [parseBody, h1, h2, h3, h0, hfx, hfy, hfz, exc_ok_bind, isnan_pfRound,
    hx, hy, hz]
  rfl

theorem mapE_map {f : β → Except Err γ} {h : α → β} :
    ∀ (l : List α), mapE f (l.map h) = mapE (fun a => f (h a)) l
  | [] => rfl
  | a :: as => by
      simp only [List.map_cons, mapE, mapE_map]

theorem strucStack_singleton (m : List Atom) : strucStack [m] = .ok [m] := by
  simp [strucStack]

/-- The full parse pipeline on the buffer written for a single
`AtomArray` with at least one atom and no NaN coordinate. -/
theorem parsePipeline_single (atoms : List Atom)
    (hnan : ∀ a ∈ atoms,
      a.x.isnan = false ∧ a.y.isnan = false ∧ a.z.isnan = false) :
    parsePipeline (setStructureSingle atoms) = .ok [atoms.map parsedOf] := by
  rw [setStructureSingle_eq]
  set B : List Line :=
    [Token.natTok atoms.length] :: [Token.word "[MOLNAME]"] :: atoms.map bodyLine with hB
  have hlenB : B.length = atoms.length + 2 := by
    rw [hB]
    simp only [List.length_cons, List.length_map]
  have hcand : candidateInds B = [0] := by
    rw [hB]
    unfold candidateInds
    rw [idxWhere_cons, idxWhere_cons, idxWhere_none isNumericLine (by
      intro l hl
      rw [List.mem_map] at hl
      obtain ⟨a, _, rfl⟩ := hl
      exact isNumericLine_bodyLine a)]
    rfl
  have hstart : startInds B = [0] := by
    unfold startInds
    rw [hcand]
    rfl
  have hcounts : headerCounts B = [atoms.length] := by
    unfold headerCounts
    rw [hstart]
    rfl
  have hnames : molNamesE B = .ok [[Token.word "[MOLNAME]"]] := by
    unfold molNamesE
    rw [hstart]
    have hbnd : 0 + 1 < B.length := by omega
    simp only [mapE, hbnd, if_true, exc_ok_bind]
    rfl
  have hheader : getHeader B none = .ok (.one atoms.length [Token.word "[MOLNAME]"]) := by
    unfold getHeader
    rw [hcounts, hnames]
    rfl
  have hmodel : parseModel B 0 atoms.length = .ok (atoms.map parsedOf) := by
    unfold parseModel
    have hcut : (B.drop 0).take (atoms.length + 2) = B := by
      rw [List.drop_zero, ← hlenB, List.take_length]
    rw [hcut]
    rw [if_neg (by rw [hlenB]; omega)]
    have hdrop : B.drop 2 = atoms.map bodyLine := by
      rw [hB]
      rfl
    rw [hdrop, mapE_map]
    exact mapE_ok_of_forall (fun a ha =>
      parseBody_bodyLine a (hnan a ha).1 (hnan a ha).2.1 (hnan a ha).2.2)
  unfold parsePipeline
  rw [hheader, hstart, hcounts]
  simp only [exc_ok_bind, List.zip_cons_cons, List.zip_nil_right, mapE, hmodel]
  exact strucStack_singleton _

/-- `get_structure` on the buffer written for a single `AtomArray`. -/
theorem getStructure_single (atoms : List Atom) (hne : atoms ≠ [])
    (hnan : ∀ a ∈ atoms,
      a.x.isnan = false ∧ a.y.isnan = false ∧ a.z.isnan = false) :
    getStructure (setStructureSingle atoms) none = .ok (.one (atoms.map parsedOf)) := by
  have hpos : 0 < atoms.length := List.length_pos.mpr hne
  have hlen : (setStructureSingle atoms).length = atoms.length + 2 := by
    rw [setStructureSingle_eq]
    simp
  unfold getStructure
  rw [if_neg (by omega)]
  rw [parsePipeline_single atoms hnan]
  simp only [exc_ok_bind]
  rw [if_pos (by simp)]
  rfl

/-- One block of the stack buffer parses to its model with rounded
coordinates. -/
theorem parseModel_block {n0 npm : ℕ} (hnpm : npm = n0 + 2)
    {ms : List (List Atom)} (hml : ∀ m ∈ ms, m.length = n0)
    (hnan : ∀ m ∈ ms, ∀ a ∈ m,
      a.x.isnan = false ∧ a.y.isnan = false ∧ a.z.isnan = false)
    (t : ℕ) (ht : t < ms.length) :
    parseModel ((blocksFrom n0 0 ms).flatten ++ [[], []]) (t * npm) n0
      = .ok ((ms.getD t []).map parsedOf) := by
  have hdrop := drop_flatten_blocksFrom hnpm [[], []] t ms 0 hml (le_of_lt ht)
  have hcons : ms.drop t = ms[t] :: ms.drop (t + 1) := List.drop_eq_getElem_cons ht
  have hmem : ms[t] ∈ ms := List.getElem_mem ht
  have hmt : (ms[t] : List Atom).length = n0 := hml _ hmem
  unfold parseModel
  rw [hdrop]
  have hz : (0 : ℕ) + t = t := by omega
  rw [hz, hcons]
  have htake := take_flatten_blocksFrom hnpm [[], []] ms[t] (ms.drop (t + 1)) t hmt
  rw [show n0 + 2 = npm from hnpm.symm, htake]
  rw [if_neg (by rw [blockOf_length, hmt, hnpm]; omega)]
  have hdrop2 : (blockOf n0 t ms[t]).drop 2 = (ms[t] : List Atom).map bodyLine := rfl
  rw [hdrop2, mapE_map]
  rw [mapE_ok_of_forall (fun a ha =>
    parseBody_bodyLine a (hnan _ hmem a ha).1 (hnan _ hmem a ha).2.1
      (hnan _ hmem a ha).2.2)]
  rw [List.getD_eq_getElem _ _ ht]

/-- The `mapE` of `parseModel` over the boundary/count pairs of a
uniform multi-model buffer, by induction over the remaining blocks. -/
theorem mapE_parse_startsFrom {B : List Line} {npm n0 k : ℕ} {P : ℕ → List Atom}
    (hpm : ∀ t, t < k → parseModel B (t * npm) n0 = .ok (P t)) :
    ∀ (j t0 : ℕ), t0 + j = k →
      mapE (fun p => parseModel B p.1 p.2)
          ((startsFrom npm (t0 * npm) j).zip (List.replicate j n0))
        = .ok ((List.range j).map (fun d => P (t0 + d)))
  | 0, t0, _ => rfl
  | j + 1, t0, hk => by
      have h0 : parseModel B (t0 * npm) n0 = .ok (P t0) := hpm t0 (by omega)
      have harith : t0 * npm + npm = (t0 + 1) * npm := by ring
      have ih := mapE_parse_startsFrom hpm j (t0 + 1) (by omega)
      show (do
        let b ← parseModel B (t0 * npm) n0
        let bs ← mapE (fun p : ℕ × ℕ => parseModel B p.1 p.2)
          ((startsFrom npm (t0 * npm + npm) j).zip (List.replicate j n0))
        Except.ok (b :: bs)) = _
      rw [harith, h0, ih]
      simp only [exc_ok_bind]
      rw [List.range_succ_eq_map]
      simp only [List.map_cons, List.map_map, Nat.add_zero]
      have hmaps : List.map ((fun d => P (t0 + d)) ∘ Nat.succ) (List.range j)
          = List.map (fun d => P (t0 + 1 + d)) (List.range j) := by
        apply List.map_congr_left
        intro d _
        simp only [Function.comp_apply, Nat.succ_eq_add_one]
        congr 1
        omega
      rw [hmaps]

theorem mkModel_map_element {els : List Token} {c : List (PyFloat × PyFloat × PyFloat)}
    (h : c.length = els.length) : (mkModel els c).map Atom.element = els := by
  unfold mkModel
  rw [List.map_map]
  have : (Atom.element ∘ fun p : Token × (PyFloat × PyFloat × PyFloat) =>
      (⟨p.1, p.2.1, p.2.2.1, p.2.2.2⟩ : Atom)) = Prod.fst := rfl
  rw [this]
  exact List.map_fst_zip els c (le_of_eq h.symm)

/-- `struc.stack` succeeds on a non-empty model list whose element
annotations all agree. -/
theorem strucStack_ok_of_uniform {ms : List (List Atom)} {els : List Token}
    (hne : ms ≠ []) (helem : ∀ m ∈ ms, m.map Atom.element = els) :
    strucStack ms = .ok ms := by
  rcases ms with _ | ⟨m0, rest⟩
  · exact absurd rfl hne
  have hall : (rest.all (fun m => m.map Atom.element = m0.map Atom.element)) = true := by
    rw [List.all_eq_true]
    intro m hm
    rw [decide_eq_true_eq, helem m (List.mem_cons_of_mem m0 hm),
      helem m0 (List.mem_cons_self m0 rest)]
  simp [strucStack, hall]

/-- The full parse pipeline on the buffer written for an
`AtomArrayStack` with at least one model, at least one atom per model
and no NaN coordinate. -/
theorem parsePipeline_stack (s : StackInput)
    (hrows : ∀ c ∈ s.coords, c.length = s.elements.length)
    (hne : s.coords ≠ [])
    (hn1 : 1 ≤ s.elements.length)
    (hnan : ∀ c ∈ s.coords, ∀ p ∈ c,
      p.1.isnan = false ∧ p.2.1.isnan = false ∧ p.2.2.isnan = false) :
    parsePipeline ((stackBlocks s).flatten ++ [[], []])
      = .ok ((s.coords.map (mkModel s.elements)).map (List.map parsedOf)) := by
  set n0 := s.elements.length with hn0
  set npm := n0 + 2 with hnpm
  set ms : List (List Atom) := s.coords.map (mkModel s.elements) with hms
  set k := ms.length with hkdef
  have hml : ∀ m ∈ ms, m.length = n0 := by
    intro m hm
    rw [hms, List.mem_map] at hm
    obtain ⟨c, hc, rfl⟩ := hm
    exact mkModel_length (hrows c hc)
  have hnan2 : ∀ m ∈ ms, ∀ a ∈ m,
      a.x.isnan = false ∧ a.y.isnan = false ∧ a.z.isnan = false := by
    intro m hm a ha
    rw [hms, List.mem_map] at hm
    obtain ⟨c, hc, rfl⟩ := hm
    unfold mkModel at ha
    rw [List.mem_map] at ha
    obtain ⟨p, hp, rfl⟩ := ha
    exact hnan c hc p.2 (List.of_mem_zip hp).2
  have hk1 : 1 ≤ k := by
    rw [hkdef, hms, List.length_map]
    exact List.length_pos.mpr hne
  set B : List Line := (blocksFrom n0 0 ms).flatten ++ [[], []] with hBs
  have hBeq : (stackBlocks s).flatten ++ [[], []] = B := rfl
  rw [hBeq]
  have hBlen : B.length = k * npm + 2 := by
    rw [hBs, List.length_append, blocksFrom_flatten_length ms 0 hml]
    simp only [List.length_cons, List.length_nil, ← hkdef, ← hnpm]
  have hcand : candidateInds B = pairsFrom npm 0 k :=
    candidateInds_blocks hnpm ms 0 hml
  have hstart : startInds B = startsFrom npm 0 k :=
    startInds_pairs (by omega) hk1 hcand
  have hgetD : ∀ t, t < k → B.getD (t * npm) [] = [Token.natTok n0] := by
    intro t ht
    have hdropB := drop_flatten_blocksFrom hnpm [[], []] t ms 0 hml (le_of_lt ht)
    have hcons : ms.drop t = ms[t] :: ms.drop (t + 1) := List.drop_eq_getElem_cons ht
    have hdd : B.drop (t * npm) = [Token.natTok n0] :: ([Token.natTok t] ::
        ((ms[t] : List Atom).map bodyLine
          ++ ((blocksFrom n0 (t + 1) (ms.drop (t + 1))).flatten ++ [[], []]))) := by
      rw [hBs, hdropB, Nat.zero_add, hcons,
        show blocksFrom n0 t (ms[t] :: ms.drop (t + 1))
          = blockOf n0 t ms[t] :: blocksFrom n0 (t + 1) (ms.drop (t + 1)) from rfl,
        List.flatten_cons, List.append_assoc]
      rfl
    exact getD_of_drop_cons hdd
  have hcounts : headerCounts B = List.replicate k n0 := by
    unfold headerCounts
    rw [hstart]
    have hmem : ∀ x ∈ startsFrom npm 0 k, countOf (B.getD x []) = n0 := by
      intro x hx
      obtain ⟨t, ht, rfl⟩ := mem_startsFrom hx
      rw [Nat.zero_add, hgetD t ht]
      rfl
    rw [map_eq_replicate_of_mem hmem, startsFrom_length]
  have hnamesAll : ∀ i ∈ startsFrom npm 0 k,
      (if i + 1 < B.length then (Except.ok (B.getD (i + 1) []) : Except Err Line)
        else .error .indexError) = .ok (B.getD (i + 1) []) := by
    intro i hi
    obtain ⟨t, ht, rfl⟩ := mem_startsFrom hi
    rw [if_pos]
    have hle : (t + 1) * npm ≤ k * npm := Nat.mul_le_mul_right npm (by omega)
    have hexp : (t + 1) * npm = t * npm + npm := by ring
    rw [hBlen]
    omega
  have hnames : molNamesE B
      = .ok ((startsFrom npm 0 k).map (fun i => B.getD (i + 1) [])) := by
    unfold molNamesE
    rw [hstart]
    exact mapE_ok_of_forall hnamesAll
  have hhdr : ∃ r, getHeader B none = .ok r := by
    unfold getHeader
    rw [hnames]
    simp only [exc_ok_bind]
    by_cases h1 : (headerCounts B).length = 1
    · rw [if_pos h1]
      exact ⟨_, rfl⟩
    · rw [if_neg h1]
      exact ⟨_, rfl⟩
  have hpm : ∀ t, t < k →
      parseModel B (t * npm) n0 = .ok ((ms.getD t []).map parsedOf) := by
    intro t ht
    exact parseModel_block hnpm hml hnan2 t ht
  have hmapE : mapE (fun p => parseModel B p.1 p.2)
      ((startsFrom npm 0 k).zip (List.replicate k n0))
      = .ok ((List.range k).map (fun d => (ms.getD d []).map parsedOf)) := by
    rw [show startsFrom npm 0 k = startsFrom npm (0 * npm) k by rw [Nat.zero_mul]]
    rw [mapE_parse_startsFrom hpm k 0 (by omega)]
    congr 1
    apply List.map_congr_left
    intro d _
    rw [Nat.zero_add]
  have hrange : (List.range k).map (fun d => (ms.getD d []).map parsedOf)
      = ms.map (List.map parsedOf) := by
    rw [hkdef]
    conv_rhs => rw [← map_getD_range ([] : List Atom) ms]
    rw [List.map_map]
    rfl
  have helem : ∀ m ∈ ms.map (List.map parsedOf), m.map Atom.element = s.elements := by
    intro m hm
    rw [List.mem_map] at hm
    obtain ⟨m1, hm1, rfl⟩ := hm
    rw [hms, List.mem_map] at hm1
    obtain ⟨c, hc, rfl⟩ := hm1
    rw [List.map_map]
    rw [show (Atom.element ∘ parsedOf) = Atom.element from rfl]
    exact mkModel_map_element (hrows c hc)
  have hmsne : ms.map (List.map parsedOf) ≠ [] := by
    have hlp : 0 < (ms.map (List.map parsedOf)).length := by
      rw [List.length_map]
      omega
    exact List.ne_nil_of_length_pos hlp
  obtain ⟨r, hr⟩ := hhdr
  unfold parsePipeline
  rw [hr]
  simp only [exc_ok_bind]
  rw [hstart, hcounts, hmapE]
  simp only [exc_ok_bind]
  rw [hrange]
  exact strucStack_ok_of_uniform hmsne helem

/-- `get_structure` on the buffer written for an `AtomArrayStack`. -/
theorem getStructure_stack (s : StackInput)
    (hrows : ∀ c ∈ s.coords, c.length = s.elements.length)
    (hne : s.coords ≠ [])
    (hn1 : 1 ≤ s.elements.length)
    (hnan : ∀ c ∈ s.coords, ∀ p ∈ c,
      p.1.isnan = false ∧ p.2.1.isnan = false ∧ p.2.2.isnan = false) :
    getStructure ((stackBlocks s).flatten ++ [[], []]) none
      = if s.coords.length = 1
        then .ok (.one (((s.coords.map (mkModel s.elements)).map
          (List.map parsedOf)).getD 0 []))
        else .ok (.many ((s.coords.map (mkModel s.elements)).map
          (List.map parsedOf))) := by
  have hml : ∀ m ∈ s.coords.map (mkModel s.elements), m.length = s.elements.length := by
    intro m hm
    rw [List.mem_map] at hm
    obtain ⟨c, hc, rfl⟩ := hm
    exact mkModel_length (hrows c hc)
  have hkpos : 0 < s.coords.length := List.length_pos.mpr hne
  have hlenB : ((stackBlocks s).flatten ++ ([[], []] : List Line)).length
      = s.coords.length * (s.elements.length + 2) + 2 := by
    show ((blocksFrom s.elements.length 0
      (s.coords.map (mkModel s.elements))).flatten ++ ([[], []] : List Line)).length = _
    rw [List.length_append,
      blocksFrom_flatten_length (s.coords.map (mkModel s.elements)) 0 hml,
      List.length_map]
    rfl
  have hkn : 1 * 3 ≤ s.coords.length * (s.elements.length + 2) :=
    Nat.mul_le_mul hkpos (by omega)
  unfold getStructure
  rw [if_neg (by rw [hlenB]; omega)]
  rw [parsePipeline_stack s hrows hne hn1 hnan]
  simp only [exc_ok_bind]
  rw [show ((s.coords.map (mkModel s.elements)).map (List.map parsedOf)).length
    = s.coords.length by rw [List.length_map, List.length_map]]

/-! ### The 6-decimal rounding bound -/

theorem abs_round6_sub (q : ℚ) : |round6 q - q| ≤ 1 / 2000000 := by
  unfold round6
  have h := abs_sub_round (q * 1000000)
  rw [abs_sub_comm] at h
  have heq : (round (q * 1000000) : ℚ) / 1000000 - q
      = ((round (q * 1000000) : ℚ) - q * 1000000) / 1000000 := by ring
  rw [heq, abs_div, show |(1000000 : ℚ)| = 1000000 by norm_num]
  calc |(round (q * 1000000) : ℚ) - q * 1000000| / 1000000
      ≤ (1 / 2) / 1000000 := by
        exact (div_le_div_iff_of_pos_right (by norm_num)).mpr h
    _ = 1 / 2000000 := by norm_num

theorem coordClose_pfRound (f : PyFloat) (h : f.isnan = false) :
    coordClose (pfRound f) f := by
  cases f with
  | finite q =>
      show |round6 q - q| ≤ 1 / 1000000
      exact le_trans (abs_round6_sub q) (by norm_num)
  | nan => simp [PyFloat.isnan] at h
  | inf => trivial
  | ninf => trivial

/-! ### Inversion lemmas for the error paths -/

theorem parseBody_ok_not_nan {l : Line} {a : Atom} (h : parseBody l = .ok a) :
    a.x.isnan = false ∧ a.y.isnan = false ∧ a.z.isnan = false := by
  unfold parseBody at h
  rcases h1 : tokAt l 1 with e | t1
  · rw [h1] at h
    simp at h
  rw [h1] at h
  simp only [exc_ok_bind] at h
  rcases hfx : floatE t1 with e | x
  · rw [hfx] at h
    simp at h
  rw [hfx] at h
  simp only [exc_ok_bind] at h
  rcases h2 : tokAt l 2 with e | t2
  · rw [h2] at h
    simp at h
  rw [h2] at h
  simp only [exc_ok_bind] at h
  rcases hfy : floatE t2 with e | y
  · rw [hfy] at h
    simp at h
  rw [hfy] at h
  simp only [exc_ok_bind] at h
  rcases h3 : tokAt l 3 with e | t3
  · rw [h3] at h
    simp at h
  rw [h3] at h
  simp only [exc_ok_bind] at h
  rcases hfz : floatE t3 with e | z
  · rw [hfz] at h
    simp at h
  rw [hfz] at h
  simp only [exc_ok_bind] at h
  by_cases hn : (x.isnan || y.isnan || z.isnan) = true
  · rw [if_pos hn] at h
    simp at h
  rw [if_neg hn] at h
  rcases h0 : tokAt l 0 with e | t0
  · rw [h0] at h
    simp at h
  rw [h0] at h
  simp only [exc_ok_bind, Except.ok.injEq] at h
  simp only [Bool.or_eq_true, not_or, Bool.not_eq_true] at hn
  rw [← h]
  exact ⟨hn.1.1, hn.1.2, hn.2⟩

theorem parseModel_ok_no_nan {lines : List Line} {ind count : ℕ} {ats : List Atom}
    (h : parseModel lines ind count = .ok ats) :
    ∀ a ∈ ats, a.x.isnan = false ∧ a.y.isnan = false ∧ a.z.isnan = false := by
  have h2 : (if count + 2 ≠ ((lines.drop ind).take (count + 2)).length then
      (Except.error (Err.countMismatch count ((lines.drop ind).take (count + 2)).length)
        : Except Err (List Atom))
    else mapE parseBody (((lines.drop ind).take (count + 2)).drop 2)) = Except.ok ats := h
  by_cases hc : count + 2 ≠ ((lines.drop ind).take (count + 2)).length
  · rw [if_pos hc] at h2
    exact Except.noConfusion h2
  · rw [if_neg hc] at h2
    intro a ha
    obtain ⟨l, _, hl⟩ := mapE_ok_mem h2 a ha
    exact parseBody_ok_not_nan hl

theorem strucStack_ok_inv {ms stk : List (List Atom)}
    (h : strucStack ms = .ok stk) : stk = ms ∧ ms ≠ [] := by
  rcases ms with _ | ⟨m0, rest⟩
  · exact Except.noConfusion h
  · have h2 : (if (rest.all fun m => List.map Atom.element m = List.map Atom.element m0)
        then (Except.ok (m0 :: rest) : Except Err (List (List Atom)))
        else .error .stackError) = .ok stk := h
    by_cases hc : (rest.all fun m => List.map Atom.element m = List.map Atom.element m0) = true
    · rw [if_pos hc] at h2
      injection h2 with h3
      exact ⟨h3.symm, by simp⟩
    · rw [if_neg hc] at h2
      exact Except.noConfusion h2

theorem parsePipeline_ok_inv {lines : List Line} {stk : List (List Atom)}
    (h : parsePipeline lines = .ok stk) :
    stk ≠ [] ∧ ∀ mdl ∈ stk, ∀ a ∈ mdl,
      a.x.isnan = false ∧ a.y.isnan = false ∧ a.z.isnan = false := by
  unfold parsePipeline at h
  rcases hh : getHeader lines none with e | r
  · rw [hh] at h
    simp at h
  rw [hh] at h
  simp only [exc_ok_bind] at h
  rcases hm : mapE (fun p => parseModel lines p.1 p.2)
      ((startInds lines).zip (headerCounts lines)) with e | ms
  · rw [hm] at h
    simp at h
  rw [hm] at h
  simp only [exc_ok_bind] at h
  obtain ⟨rfl, hne⟩ := strucStack_ok_inv h
  refine ⟨hne, ?_⟩
  intro mdl hmdl a ha
  obtain ⟨p, _, hp⟩ := mapE_ok_mem hm mdl hmdl
  exact parseModel_ok_no_nan hp a ha

theorem pyIndex_ok_mem {stk : List (List Atom)} {m : ℤ} {res : StructRes}
    (h : pyIndex stk m = .ok res) : ∃ mdl ∈ stk, res = .one mdl := by
  set idx : ℤ := if m < 0 then m + (stk.length : ℤ) else m with hidx
  have h2 : (if 0 ≤ idx ∧ idx < (stk.length : ℤ)
      then (Except.ok (.one (stk.getD idx.toNat [])) : Except Err StructRes)
      else .error .indexError) = .ok res := h
  by_cases hc : 0 ≤ idx ∧ idx < (stk.length : ℤ)
  · rw [if_pos hc] at h2
    injection h2 with h3
    obtain ⟨hc1, hc2⟩ := hc
    have hlt : idx.toNat < stk.length := by omega
    refine ⟨_, ?_, h3.symm⟩
    rw [List.getD_eq_getElem _ _ hlt]
    exact List.getElem_mem hlt
  · rw [if_neg hc] at h2
    exact Except.noConfusion h2

/-- No structure containing a NaN coordinate is ever returned by
`get_structure`. -/
theorem getStructure_ok_no_nan {lines : List Line} {m : Option ℤ} {res : StructRes}
    (h : getStructure lines m = .ok res) :
    ∀ a ∈ resAtoms res, a.x.isnan = false ∧ a.y.isnan = false ∧ a.z.isnan = false := by
  unfold getStructure at h
  by_cases hlen : lines.length ≤ 2
  · rw [if_pos hlen] at h
    exact Except.noConfusion h
  rw [if_neg hlen] at h
  rcases hp : parsePipeline lines with e | stk
  · rw [hp] at h
    simp at h
  rw [hp] at h
  simp only [exc_ok_bind] at h
  obtain ⟨hne, hml⟩ := parsePipeline_ok_inv hp
  rcases m with _ | mi
  · have h3 : (if stk.length = 1
        then (Except.ok (.one (stk.getD 0 [])) : Except Err StructRes)
        else .ok (.many stk)) = .ok res := h
    split_ifs at h3 with h1
    · injection h3 with h4
      subst h4
      intro a ha
      have h0 : 0 < stk.length := List.length_pos.mpr hne
      rw [show resAtoms (.one (stk.getD 0 [])) = stk.getD 0 [] from rfl,
        List.getD_eq_getElem _ _ h0] at ha
      exact hml _ (List.getElem_mem h0) a ha
    · injection h3 with h4
      subst h4
      intro a ha
      rw [show resAtoms (.many stk) = stk.flatten from rfl] at ha
      obtain ⟨mdl, hmdl, hamdl⟩ := List.mem_flatten.mp ha
      exact hml mdl hmdl a hamdl
  · obtain ⟨mdl, hmdl, rfl⟩ := pyIndex_ok_mem (show pyIndex stk mi = .ok res from h)
    intro a ha
    exact hml mdl hmdl a ha

/-- `get_structure` surfaces the structural-mismatch error of the first
model whose line span is shorter than declared, provided all earlier
models parse. -/
theorem getStructure_mismatch {lines : List Line} {pre post : List (ℕ × ℕ)}
    {ind count : ℕ}
    (hlen : 2 < lines.length)
    (hhdr : ∃ r, getHeader lines none = .ok r)
    (hsplit : (startInds lines).zip (headerCounts lines) = pre ++ (ind, count) :: post)
    (hpre : ∀ p ∈ pre, ∃ ats, parseModel lines p.1 p.2 = .ok ats)
    (hmis : count + 2 ≠ ((lines.drop ind).take (count + 2)).length) :
    getStructure lines none
      = .error (.countMismatch count ((lines.drop ind).take (count + 2)).length) := by
  obtain ⟨r, hr⟩ := hhdr
  have herr : parseModel lines ind count
      = .error (.countMismatch count ((lines.drop ind).take (count + 2)).length) := by
    unfold parseModel
    rw [if_pos hmis]
  have hmap : mapE (fun p => parseModel lines p.1 p.2)
      ((startInds lines).zip (headerCounts lines)) = .error
        (.countMismatch count ((lines.drop ind).take (count + 2)).length) := by
    rw [hsplit]
    exact mapE_error_at hpre herr
  unfold getStructure
  rw [if_neg (by omega)]
  unfold parsePipeline
  rw [hr]
  simp only [exc_ok_bind]
  rw [hmap]
  rfl

theorem startInds_two {lines : List Line} {i j : ℕ}
    (h : candidateInds lines = [i, j]) :
    startInds lines = if j = i + 1 then [i] else [i, j] := by
  unfold startInds
  rw [h]
  by_cases hij : j = i + 1 <;> simp [purgeAux, hij]

/-! ### Model counting -/

theorem numberOfAtoms_single {lines : List Line}
    (h : (nonBodyInds lines).length ≤ 2) :
    numberOfAtoms lines = .single (lines.drop 2).length := by
  unfold numberOfAtoms
  rw [if_pos h]

theorem countP_two_blocks :
    ∀ (blocks : List (Line × Line × List Line)),
    (∀ b ∈ blocks, b.1.length ≠ 4 ∧ b.2.1.length ≠ 4 ∧ ∀ l ∈ b.2.2, l.length = 4) →
    ((blocks.map (fun b => b.1 :: b.2.1 :: b.2.2)).flatten).countP
        (fun l => decide (l.length ≠ 4)) = 2 * blocks.length
  | [], _ => rfl
  | b :: rest, h => by
      obtain ⟨hc, hnm, hbody⟩ := h b (List.mem_cons_self b rest)
      have ih := countP_two_blocks rest (fun x hx => h x (List.mem_cons_of_mem b hx))
      rw [List.map_cons, List.flatten_cons, List.countP_append, ih, List.countP_cons,
        List.countP_cons]
      have hb0 : (b.2.2 : List Line).countP (fun l => decide (l.length ≠ 4)) = 0 := by
        rw [List.countP_eq_zero]
        intro l hl
        simp [hbody l hl]
      rw [hb0]
      simp only [hc, hnm, decide_eq_true_eq, List.length_cons]
      rw [if_pos hc, if_pos hnm]
      ring

theorem getModelCount_blocks (blocks : List (Line × Line × List Line))
    (hN : 2 ≤ blocks.length)
    (h : ∀ b ∈ blocks, b.1.length ≠ 4 ∧ b.2.1.length ≠ 4 ∧ ∀ l ∈ b.2.2, l.length = 4) :
    getModelCount ((blocks.map (fun b => b.1 :: b.2.1 :: b.2.2)).flatten)
      = blocks.length := by
  have hinds : (nonBodyInds
      ((blocks.map (fun b => b.1 :: b.2.1 :: b.2.2)).flatten)).length
      = 2 * blocks.length := by
    unfold nonBodyInds
    rw [idxWhere_length]
    exact countP_two_blocks blocks h
  unfold getModelCount numberOfAtoms
  rw [if_neg (by rw [hinds]; omega)]
  simp only [NumAtomsRes.multi.sizeOf_spec]
  rw [List.length_map, List.length_range, hinds]
  omega

/-! ### Header access -/

theorem molNamesE_ok {lines : List Line}
    (hnm : ∀ i ∈ startInds lines, i + 1 < lines.length) :
    molNamesE lines = .ok (headerNames lines) := by
  unfold molNamesE headerNames
  apply mapE_ok_of_forall
  intro i hi
  rw [if_pos (hnm i hi)]

/-- `get_header` with an explicit model index on a fresh file whose name
lines all exist: descriptive error above the model count, a bare
`IndexError` exactly at the model count, the header pair below it. -/
theorem getHeader_some_spec {lines : List Line} (m : ℕ)
    (hnm : ∀ i ∈ startInds lines, i + 1 < lines.length) :
    ((startInds lines).length < m →
      getHeader lines (some m) = .error (.headerOutOfRange m (startInds lines).length)) ∧
    (m = (startInds lines).length →
      getHeader lines (some m) = .error .indexError) ∧
    (m < (startInds lines).length →
      getHeader lines (some m)
        = .ok (.one ((headerCounts lines).getD m 0) ((headerNames lines).getD m []))) := by
  have hclen : (headerCounts lines).length = (startInds lines).length := by
    unfold headerCounts
    rw [List.length_map]
  have hnames := molNamesE_ok hnm
  refine ⟨?_, ?_, ?_⟩
  · intro hm
    unfold getHeader
    rw [hnames]
    simp only [exc_ok_bind]
    rw [if_pos (by omega)]
    rw [hclen]
  · intro hm
    unfold getHeader
    rw [hnames]
    simp only [exc_ok_bind]
    rw [if_neg (by omega), if_neg (by omega)]
  · intro hm
    unfold getHeader
    rw [hnames]
    simp only [exc_ok_bind]
    rw [if_neg (by omega), if_pos (by omega)]

/-! ### Empty-buffer behaviour -/

theorem getStructure_empty {lines : List Line} (m : Option ℤ)
    (h : lines.length ≤ 2) : getStructure lines m = .error .emptyFile := by
  unfold getStructure
  rw [if_pos h]

theorem setHeader_empty {lines : List Line} (nm : Line)
    (h : lines.length ≤ 2) :
    ∃ e, setHeader lines nm none = .error e := by
  unfold setHeader
  rcases hh : getHeader lines none with e | r
  · exact ⟨e, rfl⟩
  · simp only [exc_ok_bind]
    rw [if_neg (by omega)]
    exact ⟨.prematureSetHeader, rfl⟩

/-! ### Result dispatch -/

theorem getStructure_dispatch {lines : List Line} {stk : List (List Atom)}
    (hlen : 2 < lines.length)
    (hp : parsePipeline lines = .ok stk) :
    (stk.length = 1 → ∃ mdl, stk = [mdl] ∧ getStructure lines none = .ok (.one mdl)) ∧
    (2 ≤ stk.length → getStructure lines none = .ok (.many stk)) := by
  constructor
  · intro h1
    obtain ⟨mdl, rfl⟩ := List.length_eq_one.mp h1
    refine ⟨mdl, rfl, ?_⟩
    unfold getStructure
    rw [if_neg (by omega), hp]
    simp only [exc_ok_bind]
    rfl
  · intro h2
    unfold getStructure
    rw [if_neg (by omega), hp]
    simp only [exc_ok_bind]
    rw [if_neg (by omega)]

theorem tokAt_of_get? {l : Line} {k : ℕ} {t : Token} (h : l.get? k = some t) :
    tokAt l k = .ok t := by
  unfold tokAt
  rw [h]

theorem floatE_of_pyFloat {t : Token} {f : PyFloat} (h : t.pyFloat = some f) :
    floatE t = .ok f := by
  unfold floatE
  rw [h]

/-! ## The claims -/

/-- C1 (amended): for every structure with at least one atom (and for
stacks, at least one model and at least one atom per model) and no NaN
coordinate, serializing with `set_structure` into a fresh `XYZFile` and
parsing back with `get_structure` yields the same atom count, the same
element labels in the same order, and coordinates equal to the original
within 6-decimal-place tolerance (each parsed coordinate is the
original rounded to 6 decimals).  The claim as stated over *every*
structure fails: the empty structure serializes to a 2-line buffer,
which `get_structure` rejects as an empty `XYZFile`, and a NaN
coordinate round-trips into the NaN parse error. -/
theorem claimC1_roundtrip_corrected :
    (∀ atoms : List Atom, atoms ≠ [] →
      (∀ a ∈ atoms, a.x.isnan = false ∧ a.y.isnan = false ∧ a.z.isnan = false) →
      getStructure (setStructureSingle atoms) none = .ok (.one (atoms.map parsedOf)) ∧
      (atoms.map parsedOf).length = atoms.length ∧
      (atoms.map parsedOf).map Atom.element = atoms.map Atom.element ∧
      ∀ a ∈ atoms, coordClose (pfRound a.x) a.x ∧ coordClose (pfRound a.y) a.y ∧
        coordClose (pfRound a.z) a.z) ∧
    (∀ s : StackInput, (∀ c ∈ s.coords, c.length = s.elements.length) →
      s.coords ≠ [] → 1 ≤ s.elements.length →
      (∀ c ∈ s.coords, ∀ p ∈ c,
        p.1.isnan = false ∧ p.2.1.isnan = false ∧ p.2.2.isnan = false) →
      ∀ L, setStructureStack s = .ok L →
        (getStructure L none
          = if s.coords.length = 1
            then .ok (.one (((s.coords.map (mkModel s.elements)).map
              (List.map parsedOf)).getD 0 []))
            else .ok (.many ((s.coords.map (mkModel s.elements)).map
              (List.map parsedOf)))) ∧
        ∀ mdl ∈ s.coords.map (mkModel s.elements),
          (mdl.map parsedOf).length = mdl.length ∧
          (mdl.map parsedOf).map Atom.element = mdl.map Atom.element ∧
          ∀ a ∈ mdl, coordClose (pfRound a.x) a.x ∧ coordClose (pfRound a.y) a.y ∧
            coordClose (pfRound a.z) a.z) := by
  constructor
  · intro atoms hne hnan
    refine ⟨getStructure_single atoms hne hnan, List.length_map _ _, ?_, ?_⟩
    · rw [List.map_map]
      rfl
    · intro a ha
      obtain ⟨hx, hy, hz⟩ := hnan a ha
      exact ⟨coordClose_pfRound _ hx, coordClose_pfRound _ hy, coordClose_pfRound _ hz⟩
  · intro s hrows hne hn1 hnan L hL
    have hEq := setStructureStack_eq s hrows hne
    rw [hL] at hEq
    injection hEq with hLval
    subst hLval
    constructor
    · exact getStructure_stack s hrows hne hn1 hnan
    · intro mdl hmdl
      refine ⟨List.length_map _ _, by rw [List.map_map]; rfl, ?_⟩
      intro a ha
      rw [List.mem_map] at hmdl
      obtain ⟨c, hc, rfl⟩ := hmdl
      unfold mkModel at ha
      rw [List.mem_map] at ha
      obtain ⟨p, hp, rfl⟩ := ha
      obtain ⟨hx, hy, hz⟩ := hnan c hc p.2 (List.of_mem_zip hp).2
      exact ⟨coordClose_pfRound _ hx, coordClose_pfRound _ hy, coordClose_pfRound _ hz⟩

/-- C1 counterexample: the empty structure (a valid `AtomArray` of 0
atoms) serializes to the two header lines only, and `get_structure` on
that buffer raises the empty-file error instead of returning a
structure with the same (zero) atom count. -/
theorem claimC1_counterexample :
    setStructureSingle ([] : List Atom) = [[Token.natTok 0], [Token.word "[MOLNAME]"]] ∧
    getStructure (setStructureSingle ([] : List Atom)) none = .error .emptyFile := by
  exact ⟨by decide, by decide⟩

theorem claimC1_witness :
    getStructure
        (setStructureSingle [⟨Token.word "C", .finite 0, .finite 0, .finite 0⟩]) none
      = .ok (.one ([(⟨Token.word "C", .finite 0, .finite 0, .finite 0⟩ : Atom)].map
          parsedOf)) :=
  (claimC1_roundtrip_corrected.1 [⟨Token.word "C", .finite 0, .finite 0, .finite 0⟩]
    (by decide) (by decide)).1

/-- C3 (amended): a body line whose parsed x, y or z coordinate is NaN
makes the parse raise the invalid-numeric-data error carrying the
offending coordinate triple, and no structure containing a NaN
coordinate is ever returned by `get_structure`.  Inf coordinates,
however, pass undetected (the source checks `np.isnan` only, and
`np.isnan(inf)` is false), so the claim's "non-finite (NaN or Inf)"
fails for Inf. -/
theorem claimC3_nan_corrected :
    (∀ (l : Line) (t1 t2 t3 : Token) (x y z : PyFloat),
      l.get? 1 = some t1 → l.get? 2 = some t2 → l.get? 3 = some t3 →
      t1.pyFloat = some x → t2.pyFloat = some y → t3.pyFloat = some z →
      (x.isnan || y.isnan || z.isnan) = true →
      parseBody l = .error (.nanCoord x y z)) ∧
    (∀ (lines : List Line) (m : Option ℤ) (res : StructRes),
      getStructure lines m = .ok res →
      ∀ a ∈ resAtoms res,
        a.x.isnan = false ∧ a.y.isnan = false ∧ a.z.isnan = false) := by
  constructor
  · intro l t1 t2 t3 x y z h1 h2 h3 hx hy hz hnan
    unfold parseBody
    rw [tokAt_of_get? h1]
    simp only [exc_ok_bind]
    rw [floatE_of_pyFloat hx]
    simp only [exc_ok_bind]
    rw [tokAt_of_get? h2]
    simp only [exc_ok_bind]
    rw [floatE_of_pyFloat hy]
    simp only [exc_ok_bind]
    rw [tokAt_of_get? h3]
    simp only [exc_ok_bind]
    rw [floatE_of_pyFloat hz]
    simp only [exc_ok_bind]
    rw [if_pos hnan]
  · intro lines m res h
    exact getStructure_ok_no_nan h

/-- C3 counterexample: a body line with an Inf x-coordinate parses
without any error, and `get_structure` returns the structure containing
the non-finite coordinate — refuting the claim for Inf. -/
theorem claimC3_counterexample :
    getStructure [[Token.natTok 1], [Token.word "m"],
        [Token.word "C", Token.infTok, Token.natTok 0, Token.natTok 0]] none
      = .ok (.one [⟨Token.word "C", .inf, .finite 0, .finite 0⟩]) ∧
    (PyFloat.inf.isnan = false ∧ PyFloat.inf ≠ .finite 0) := by
  exact ⟨by decide, by decide, by decide⟩

theorem claimC3_witness :
    parseBody [Token.word "C", Token.nanTok, Token.natTok 0, Token.natTok 0]
      = .error (.nanCoord .nan (.finite 0) (.finite 0)) :=
  claimC3_nan_corrected.1 _ _ _ _ _ _ _ rfl rfl rfl rfl rfl rfl (by decide)

/-- C10: a stack of k ≥ 1 models with n atoms each, written into a
fresh `XYZFile` via `set_structure`, produces a line buffer of exactly
k*(n+2)+2 lines: the k model blocks occupy lines 0 through k*(n+2)-1
(overwriting the two initial empty header-placeholder lines), and the
final two lines remain empty. -/
theorem claimC10_stack_layout (s : StackInput) (k n : ℕ)
    (hk : s.coords.length = k) (hn : s.elements.length = n)
    (hrows : ∀ c ∈ s.coords, c.length = n) (hne : s.coords ≠ []) :
    ∃ L, setStructureStack s = .ok L ∧
      L.length = k * (n + 2) + 2 ∧
      L.take (k * (n + 2)) = (stackBlocks s).flatten ∧
      L.drop (k * (n + 2)) = [[], []] ∧
      (stackBlocks s).flatten.length = k * (n + 2) := by
  have hrows2 : ∀ c ∈ s.coords, c.length = s.elements.length := by
    intro c hc
    rw [hn]
    exact hrows c hc
  have hml : ∀ m ∈ s.coords.map (mkModel s.elements), m.length = s.elements.length := by
    intro m hm
    rw [List.mem_map] at hm
    obtain ⟨c, hc, rfl⟩ := hm
    exact mkModel_length (hrows2 c hc)
  have hflatlen : (stackBlocks s).flatten.length = k * (n + 2) := by
    show ((blocksFrom s.elements.length 0
      (s.coords.map (mkModel s.elements))).flatten).length = _
    rw [blocksFrom_flatten_length _ 0 hml, List.length_map, hk, hn]
  refine ⟨(stackBlocks s).flatten ++ [[], []],
    setStructureStack_eq s hrows2 hne, ?_, ?_, ?_, hflatlen⟩
  · rw [List.length_append, hflatlen]
    rfl
  · rw [← hflatlen]
    exact List.take_left _ _
  · rw [← hflatlen]
    exact List.drop_left _ _

theorem claimC10_witness :
    ∃ L, setStructureStack
        ⟨[Token.word "C"], [[(.finite 0, .finite 0, .finite 0)]]⟩ = .ok L ∧
      L.length = 1 * (1 + 2) + 2 ∧
      L.take (1 * (1 + 2)) = (stackBlocks
        ⟨[Token.word "C"], [[(.finite 0, .finite 0, .finite 0)]]⟩).flatten ∧
      L.drop (1 * (1 + 2)) = [[], []] ∧
      (stackBlocks ⟨[Token.word "C"],
        [[(.finite 0, .finite 0, .finite 0)]]⟩).flatten.length = 1 * (1 + 2) :=
  claimC10_stack_layout _ 1 1 rfl rfl (by decide) (by decide)

/-- C2: for every valid N-model XYZ input with N ≥ 2, in which each
model contributes exactly one count line and one name line as its only
non-body lines (a non-body line has a whitespace-token count other than
4), `get_model_count` returns N. -/
theorem claimC2_model_count (blocks : List (Line × Line × List Line)) (N : ℕ)
    (hlen : blocks.length = N) (h2 : 2 ≤ N)
    (h : ∀ b ∈ blocks, b.1.length ≠ 4 ∧ b.2.1.length ≠ 4 ∧ ∀ l ∈ b.2.2, l.length = 4) :
    getModelCount ((blocks.map (fun b => b.1 :: b.2.1 :: b.2.2)).flatten) = N := by
  rw [← hlen]
  exact getModelCount_blocks blocks (by omega) h

theorem claimC2_witness :
    getModelCount ((([(([Token.natTok 1], [Token.word "A"],
        [[Token.word "C", Token.natTok 0, Token.natTok 0, Token.natTok 0]]) :
          Line × Line × List Line),
      (([Token.natTok 1], [Token.word "B"],
        [[Token.word "C", Token.natTok 1, Token.natTok 1, Token.natTok 1]]) :
          Line × Line × List Line)]).map
      (fun b => b.1 :: b.2.1 :: b.2.2)).flatten) = 2 :=
  claimC2_model_count _ 2 rfl (by omega) (by decide)

/-- C4 (amended): on a file whose every boundary line is followed by a
name line, `get_header(model=m)` raises the descriptive out-of-range
`ValueError` naming `m` and the model count `M` only when `m > M`; at
`m = M` (also out of range) it instead raises a bare `IndexError`; for
`m < M` it returns that model's `(atom_count, model_name)` pair.  The
claim as stated — descriptive error for every `m ≥ M` — fails at
`m = M`, because the source checks `model > len(self._atom_numbers)`
instead of `>=`. -/
theorem claimC4_header_bounds_corrected (lines : List Line) (m : ℕ)
    (hnm : ∀ i ∈ startInds lines, i + 1 < lines.length) :
    ((startInds lines).length < m →
      getHeader lines (some m) = .error (.headerOutOfRange m (startInds lines).length)) ∧
    (m = (startInds lines).length →
      getHeader lines (some m) = .error .indexError) ∧
    (m < (startInds lines).length →
      getHeader lines (some m)
        = .ok (.one ((headerCounts lines).getD m 0) ((headerNames lines).getD m []))) :=
  getHeader_some_spec m hnm

/-- C4 counterexample: on a 2-model file, `get_header(model=2)` (an
out-of-range request, since the models are 0 and 1) raises the bare
`IndexError`, not the descriptive error naming the requested index and
the available count that the claim demands for every `m ≥ M`. -/
theorem claimC4_counterexample :
    getHeader [[Token.natTok 1], [Token.word "A"],
        [Token.word "C", Token.natTok 0, Token.natTok 0, Token.natTok 0],
        [Token.natTok 1], [Token.word "B"],
        [Token.word "C", Token.natTok 1, Token.natTok 1, Token.natTok 1]] (some 2)
      = .error .indexError ∧
    (Err.indexError ≠ Err.headerOutOfRange 2 2) := by
  constructor
  · decide
  · decide

theorem claimC4_witness :
    getHeader [[Token.natTok 1], [Token.word "A"],
        [Token.word "C", Token.natTok 0, Token.natTok 0, Token.natTok 0],
        [Token.natTok 1], [Token.word "B"],
        [Token.word "C", Token.natTok 1, Token.natTok 1, Token.natTok 1]] (some 3)
      = .error (.headerOutOfRange 3 (startInds [[Token.natTok 1], [Token.word "A"],
        [Token.word "C", Token.natTok 0, Token.natTok 0, Token.natTok 0],
        [Token.natTok 1], [Token.word "B"],
        [Token.word "C", Token.natTok 1, Token.natTok 1, Token.natTok 1]]).length) :=
  (claimC4_header_bounds_corrected _ 3 (by decide)).1 (by decide)

/-- C5: whenever the span of lines cut for a model (the Python slice
`lines[ind : ind+2+count]`, which can only fall short of `count + 2`
lines) has a length different from its declared atom count plus 2, and
all models processed before it parse cleanly (the loop raises the first
error it meets), `get_structure` raises the structural-mismatch
`ValueError` carrying both the declared atom count and the actual span
length. -/
theorem claimC5_span_mismatch (lines : List Line) (pre post : List (ℕ × ℕ))
    (ind count : ℕ)
    (hlen : 2 < lines.length)
    (hhdr : ∃ r, getHeader lines none = .ok r)
    (hsplit : (startInds lines).zip (headerCounts lines) = pre ++ (ind, count) :: post)
    (hpre : ∀ p ∈ pre, ∃ ats, parseModel lines p.1 p.2 = .ok ats)
    (hmis : count + 2 ≠ ((lines.drop ind).take (count + 2)).length) :
    getStructure lines none
      = .error (.countMismatch count ((lines.drop ind).take (count + 2)).length) :=
  getStructure_mismatch hlen hhdr hsplit hpre hmis

theorem claimC5_witness :
    getStructure [[Token.natTok 2], [Token.word "nm"],
        [Token.word "C", Token.natTok 0, Token.natTok 0, Token.natTok 0]] none
      = .error (.countMismatch 2 3) := by
  have h := claimC5_span_mismatch
    [[Token.natTok 2], [Token.word "nm"],
      [Token.word "C", Token.natTok 0, Token.natTok 0, Token.natTok 0]]
    [] [] 0 2 (by decide) ⟨.one 2 [Token.word "nm"], by decide⟩ (by decide)
    (by intro p hp; exact absurd hp (List.not_mem_nil p)) (by decide)
  exact h.trans (by decide)

/-- C6 (amended): on a buffer with no body content beyond the two
header lines, `get_structure` and `set_header` (without a model index)
fail fatally, but `get_header` does not: on the fresh empty buffer it
returns the degenerate pair of empty lists. -/
theorem claimC6_empty_ops_corrected :
    (∀ (lines : List Line) (m : Option ℤ), lines.length ≤ 2 →
      getStructure lines m = .error .emptyFile) ∧
    (∀ (lines : List Line) (nm : Line), lines.length ≤ 2 →
      ∃ e, setHeader lines nm none = .error e) ∧
    getHeader [[], []] none = .ok (.lists [] []) := by
  refine ⟨?_, ?_, by decide⟩
  · intro lines m h
    exact getStructure_empty m h
  · intro lines nm h
    exact setHeader_empty nm h

/-- C6 counterexample: on the fresh buffer of two empty header lines,
`get_header` returns the degenerate empty header lists instead of
failing fatally as the claim requires of every header/structure
operation. -/
theorem claimC6_counterexample :
    getHeader [[], []] none = .ok (.lists [] []) ∧
    ∀ e : Err, (Except.ok (HeaderRes.lists [] []) : Except Err HeaderRes)
      ≠ .error e := by
  constructor
  · decide
  · intro e h
    exact Except.noConfusion h

theorem claimC6_witness :
    getStructure ([[], []] : List Line) none = .error .emptyFile :=
  claimC6_empty_ops_corrected.1 [[], []] none (by decide)

/-- C7: whenever at most 2 lines of the buffer have a whitespace-token
count different from 4, the file is treated as single-model: the derived
atom count is the total number of lines minus the two header lines, and
`get_model_count` returns 1. -/
theorem claimC7_single_model (lines : List Line)
    (h : lines.countP (fun l => decide (l.length ≠ 4)) ≤ 2) :
    numberOfAtoms lines = .single (lines.drop 2).length ∧
    getModelCount lines = 1 := by
  have hinds : (nonBodyInds lines).length ≤ 2 := by
    unfold nonBodyInds
    rw [idxWhere_length]
    exact h
  have h1 := numberOfAtoms_single hinds
  refine ⟨h1, ?_⟩
  unfold getModelCount
  rw [h1]

theorem claimC7_witness :
    numberOfAtoms [[Token.natTok 2], [Token.word "MOL"],
        [Token.word "C", Token.natTok 0, Token.natTok 0, Token.natTok 0],
        [Token.word "H", Token.natTok 1, Token.natTok 0, Token.natTok 0]]
      = .single 2 ∧
    getModelCount [[Token.natTok 2], [Token.word "MOL"],
        [Token.word "C", Token.natTok 0, Token.natTok 0, Token.natTok 0],
        [Token.word "H", Token.natTok 1, Token.natTok 0, Token.natTok 0]] = 1 :=
  claimC7_single_model _ (by decide)

/-- C8 (amended): when the initial scan finds exactly two candidate
boundary lines `i < j`, the detector collapses them to the first only
when they are adjacent (`j = i + 1`); otherwise both are kept.  The
claim's unconditional collapse is wrong: two candidates take the
`shape[0] > 1` purge branch, and the dedicated `elif shape[0] == 2`
branch of the source is unreachable. -/
theorem claimC8_two_candidates_corrected (lines : List Line) (i j : ℕ)
    (h : candidateInds lines = [i, j]) :
    startInds lines = if j = i + 1 then [i] else [i, j] :=
  startInds_two h

/-- C8 counterexample: a buffer whose scan finds exactly the two
candidates 0 and 2 (distance 2); the detector keeps both, refuting the
claimed collapse to the first regardless of distance. -/
theorem claimC8_counterexample :
    candidateInds [[Token.natTok 3], [Token.word "a", Token.word "b", Token.word "c"],
        [Token.natTok 7]] = [0, 2] ∧
    startInds [[Token.natTok 3], [Token.word "a", Token.word "b", Token.word "c"],
        [Token.natTok 7]] = [0, 2] ∧
    ([0, 2] : List ℕ) ≠ [0] := by
  refine ⟨by decide, by decide, by decide⟩

theorem claimC8_witness :
    startInds [[Token.natTok 5], [Token.natTok 7]] = if 1 = 0 + 1 then [0] else [0, 1] :=
  claimC8_two_candidates_corrected _ 0 1 (by decide)

/-- C9: when the parse pipeline succeeds, `get_structure` with the
model parameter omitted returns the full stack as soon as it holds two
or more models, and returns the single structure unwrapped (the `one`
constructor, not a one-element `many`) when the stack holds exactly one
model. -/
theorem claimC9_dispatch (lines : List Line) (stk : List (List Atom))
    (hlen : 2 < lines.length)
    (hp : parsePipeline lines = .ok stk) :
    (stk.length = 1 → ∃ mdl, stk = [mdl] ∧ getStructure lines none = .ok (.one mdl)) ∧
    (2 ≤ stk.length → getStructure lines none = .ok (.many stk)) :=
  getStructure_dispatch hlen hp

theorem claimC9_witness :
    ∃ mdl, ([[(⟨Token.word "C", .finite 0, .finite 0, .finite 0⟩ : Atom)]]
        : List (List Atom)) = [mdl]
      ∧ getStructure [[Token.natTok 1], [Token.word "m"],
          [Token.word "C", Token.natTok 0, Token.natTok 0, Token.natTok 0]] none
        = .ok (.one mdl) :=
  (claimC9_dispatch _ _ (by decide) (by decide)).1 (by decide)

end XYZ
